import Mathlib

/-!
Shallow embedding of the core pipeline of the `titulo` repository
(`src/ai/tracker.py`, `src/core/sync_engine.py`, `src/core/fusion_engine.py`)
and proofs about the frozen claims.

Conventions of the embedding:
* Python floats are modelled as rationals (`ℚ`); `np.linalg.norm` (a square
  root, generally irrational) is kept abstract as a parameter `norm`, and
  theorems that depend on its value carry hypotheses pinning it down on the
  vectors involved.
* Python dicts are modelled as association lists in insertion order
  (`lookupA` reads, `setA` writes, insertion appends at the end).
* A raised Python exception is modelled by `Except.error ()`.
* The global-id strings `"F<n>"` / `"T<n>"` are modelled by the inductive
  `GId` (`GId.F n` / `GId.T n`); the Python formatting `f"F{n}"` is injective
  in `n`, and so is `GId.F`.
* Fields never read by any verified property (`entity_type`, `class_id`,
  the raw image payloads, the loguru logging and the `stats` dictionaries)
  are omitted.
-/

namespace S2P

/-- Association-list lookup, first matching key wins (Python dict read). -/
def lookupA {κ β : Type} [DecidableEq κ] (k : κ) : List (κ × β) → Option β
  | [] => none
  | (k', v) :: rest => if k' = k then some v else lookupA k rest

/-- Association-list write: replace the first binding of `k`, else append
(Python dict assignment keeps insertion order). -/
def setA {κ β : Type} [DecidableEq κ] (k : κ) (v : β) : List (κ × β) → List (κ × β)
  | [] => [(k, v)]
  | (k', v') :: rest => if k' = k then (k, v) :: rest else (k', v') :: setA k v rest

/-- Bounding box `[x1, y1, x2, y2]`. -/
structure BBox where
  x1 : ℚ
  y1 : ℚ
  x2 : ℚ
  y2 : ℚ
deriving DecidableEq, Repr

/-- Center of a bounding box (`TrackedObject.center`). -/
def BBox.center (b : BBox) : ℚ × ℚ :=
  ((b.x1 + b.x2) / 2, (b.y1 + b.y2) / 2)

/-- Intersection area of two boxes, as computed by `calculate_iou`:
`max(0, x2-x1) * max(0, y2-y1)` of the overlap rectangle. -/
def interArea (b1 b2 : BBox) : ℚ :=
  max 0 (min b1.x2 b2.x2 - max b1.x1 b2.x1) * max 0 (min b1.y2 b2.y2 - max b1.y1 b2.y1)

/-- Box area `(x2-x1)*(y2-y1)` as in `calculate_iou`. -/
def boxArea (b : BBox) : ℚ := (b.x2 - b.x1) * (b.y2 - b.y1)

/-- Union area `area1 + area2 - intersection` as in `calculate_iou`. -/
def unionArea (b1 b2 : BBox) : ℚ := boxArea b1 + boxArea b2 - interArea b1 b2

/-- `SimpleTracker.calculate_iou`: `intersection / union if union > 0 else 0.0`. -/
def calculateIou (b1 b2 : BBox) : ℚ :=
  if 0 < unionArea b1 b2 then interArea b1 b2 / unionArea b1 b2 else 0

/-- Track state string of `TrackedObject.state`. -/
inductive TrackState where
  | tentative
  | confirmed
  | deleted
deriving DecidableEq, Repr

/-- Global-id strings: `"T<n>"` minted by `SimpleTracker`, `"F<n>"` minted by
`MultiCameraTracker._assign_global_id` / `FusionEngine`. -/
inductive GId where
  | T (n : ℕ)
  | F (n : ℕ)
deriving DecidableEq, Repr

/-- `TrackedObject` (src/ai/tracker.py). `trajectory` is the bounded deque of
centers (maxlen 50, newest last). -/
structure TrackedObject where
  global_id : GId
  local_id : ℕ
  camera_id : ℕ
  bbox : BBox
  confidence : ℚ
  features : Option (List ℚ) := none
  trajectory : List (ℚ × ℚ) := []
  age : ℕ := 0
  time_since_update : ℕ := 0
  state : TrackState := .tentative
deriving DecidableEq, Repr

/-- Push onto a `deque(maxlen=50)` modelled as a list with the newest element
last: append and drop from the front beyond 50 entries. -/
def pushTraj (tr : List (ℚ × ℚ)) (c : ℚ × ℚ) : List (ℚ × ℚ) :=
  let tr' := tr ++ [c]
  tr'.drop (tr'.length - 50)

/-- Construction of a fresh `TrackedObject` (its `__post_init__` seeds the
trajectory with the current center; `age=0`, `time_since_update=0`,
`state="tentative"`). -/
def newTrack (gid : GId) (lid cam : ℕ) (bbox : BBox) (conf : ℚ)
    (feats : Option (List ℚ)) : TrackedObject :=
  { global_id := gid, local_id := lid, camera_id := cam, bbox := bbox,
    confidence := conf, features := feats, trajectory := pushTraj [] bbox.center }

/-- A detection triple `(bbox, confidence, features)` as consumed by
`SimpleTracker.update`. -/
structure Det where
  bbox : BBox
  confidence : ℚ
  features : Option (List ℚ) := none
deriving DecidableEq, Repr

/-- `TrackedObject.update`: apply a matched detection.  Note the promotion
threshold is the hard-coded literal `3` in the source (`if self.age >= 3`). -/
def applyDet (t : TrackedObject) (d : Det) : TrackedObject :=
  let t' : TrackedObject :=
    { t with
      bbox := d.bbox
      confidence := d.confidence
      features := match d.features with
        | some f => some f
        | none => t.features
      trajectory := pushTraj t.trajectory d.bbox.center
      time_since_update := 0
      age := t.age + 1 }
  if 3 ≤ t'.age ∧ t'.state = .tentative then { t' with state := .confirmed } else t'

/-- `TrackedObject.mark_missed`. -/
def markMissed (t : TrackedObject) : TrackedObject :=
  { t with time_since_update := t.time_since_update + 1, age := t.age + 1 }

/-- `SimpleTracker` instance state (configuration plus mutable fields). -/
structure SimpleState where
  max_age : ℕ := 30
  min_hits : ℕ := 3
  iou_threshold : ℚ := 3/10
  tracks : List TrackedObject := []
  next_id : ℕ := 0
deriving DecidableEq, Repr

/-- Row-major list of index pairs of an `n × m` matrix (numpy C-order). -/
def entryList (n m : ℕ) : List (ℕ × ℕ) :=
  (List.range n).flatMap fun i => (List.range m).map fun j => (i, j)

/-- `iou_matrix.max()` over an `n × m` matrix given as a function; `none` for a
zero-size matrix (where numpy raises `ValueError`). -/
def matMax (A : ℕ → ℕ → ℚ) (n m : ℕ) : Option ℚ :=
  match entryList n m with
  | [] => none
  | p :: ps => some (ps.foldl (fun acc q => max acc (A q.1 q.2)) (A p.1 p.2))

/-- `np.unravel_index(iou_matrix.argmax(), ...)`: the first (row-major)
position attaining the maximum value `mx`. -/
def argmaxPos (A : ℕ → ℕ → ℚ) (n m : ℕ) (mx : ℚ) : Option (ℕ × ℕ) :=
  (entryList n m).find? fun p => A p.1 p.2 = mx

/-- Replace one list element in place (`self.tracks[i] = ...`). -/
def modifyIdx (l : List TrackedObject) (i : ℕ) (f : TrackedObject → TrackedObject) :
    List TrackedObject :=
  match l[i]? with
  | some t => l.set i (f t)
  | none => l

/-- The greedy matching loop of `SimpleTracker.update`: pick the global maximum
of the IoU matrix, stop when it drops below the threshold, otherwise bind the
pair, update the track in place and erase that row and column to `-1`.
Fuel-based; `none` models non-termination of the source loop (never reached
for thresholds above `-1`, see `greedyLoop_isSome`). -/
def greedyLoop (θ : ℚ) (dets : List Det) (n m : ℕ) :
    ℕ → (ℕ → ℕ → ℚ) → List TrackedObject → List ℕ → List ℕ →
    Option (List TrackedObject × List ℕ × List ℕ)
  | 0, _, _, _, _ => none
  | fuel + 1, A, tracks, mT, mD =>
    match matMax A n m with
    | none => none
    | some mx =>
      if mx < θ then some (tracks, mT, mD)
      else
        match argmaxPos A n m mx with
        | none => none
        | some (i, j) =>
          match dets[j]? with
          | none => none
          | some d =>
            greedyLoop θ dets n m fuel
              (fun a b => if a = i ∨ b = j then -1 else A a b)
              (modifyIdx tracks i (fun t => applyDet t d))
              (i :: mT) (j :: mD)

/-- Append fresh tentative tracks for the unmatched detections
(`SimpleTracker.update`, creation branch), threading `next_id`.
In the simple tracker each new track gets `global_id = f"T{next_id}"`,
`local_id = next_id`, `camera_id = 0`. -/
def createTracks (dets : List (ℕ × Det)) (mD : List ℕ)
    (tracks : List TrackedObject) (next : ℕ) : List TrackedObject × ℕ :=
  match dets with
  | [] => (tracks, next)
  | (j, d) :: rest =>
    if j ∈ mD then createTracks rest mD tracks next
    else createTracks rest mD
      (tracks ++ [newTrack (.T next) next 0 d.bbox d.confidence d.features]) (next + 1)

/-- The IoU cost matrix built by `SimpleTracker.update`
(`iou_matrix[i, j] = calculate_iou(tracks[i].bbox, detections[j].bbox)`). -/
def iouMatrix (st : SimpleState) (dets : List Det) : ℕ → ℕ → ℚ :=
  fun i j =>
    calculateIou ((st.tracks[i]?.map (·.bbox)).getD ⟨0,0,0,0⟩)
      ((dets[j]?.map (·.bbox)).getD ⟨0,0,0,0⟩)

/-- `SimpleTracker.update`.  Returns the updated tracker state together with the
returned list (`confirmed_tracks`).  `Except.error ()` models the `ValueError`
numpy raises on `iou_matrix.max()` when the matrix is zero-size (non-empty
track list, empty detection list), as well as a non-terminating greedy loop. -/
def simpleUpdate (st : SimpleState) (dets : List Det) :
    Except Unit (SimpleState × List TrackedObject) :=
  let afterAssoc : Except Unit (List TrackedObject × ℕ) :=
    if st.tracks = [] then
      .ok (createTracks dets.enum [] st.tracks st.next_id)
    else
      let n := st.tracks.length
      let m := dets.length
      match greedyLoop st.iou_threshold dets n m (n + 1) (iouMatrix st dets) st.tracks [] [] with
      | none => .error ()
      | some (tracks1, mT, mD) =>
        let tracks2 := tracks1.enum.map fun p =>
          if p.1 ∈ mT then p.2 else markMissed p.2
        .ok (createTracks dets.enum mD tracks2 st.next_id)
  match afterAssoc with
  | .error e => .error e
  | .ok (tracks3, next') =>
    let survivors := tracks3.filter fun t => t.time_since_update < st.max_age
    let confirmed := survivors.filter fun t => st.min_hits ≤ t.age
    .ok ({ st with tracks := survivors, next_id := next' }, confirmed)

/-- Iterated `TrackedObject.update` over a list of matched detections. -/
def applyDets (t : TrackedObject) (ds : List Det) : TrackedObject :=
  ds.foldl applyDet t

theorem applyDet_age (t : TrackedObject) (d : Det) : (applyDet t d).age = t.age + 1 := by
  unfold applyDet
  dsimp only
  split <;> rfl

theorem applyDet_local_id (t : TrackedObject) (d : Det) :
    (applyDet t d).local_id = t.local_id := by
  unfold applyDet
  dsimp only
  split <;> rfl

theorem applyDet_state_confirmed (t : TrackedObject) (d : Det)
    (h : t.state = .confirmed) : (applyDet t d).state = .confirmed := by
  unfold applyDet
  dsimp only
  split
  · rfl
  · simpa using h

theorem applyDets_state_confirmed (t : TrackedObject) (ds : List Det)
    (h : t.state = .confirmed) : (applyDets t ds).state = .confirmed := by
  induction ds generalizing t with
  | nil => exact h
  | cons d ds ih =>
    exact ih (applyDet t d) (applyDet_state_confirmed t d h)

theorem markMissed_state (t : TrackedObject) : (markMissed t).state = t.state := rfl

/-- State machine of consecutive matched updates on a tentative track:
still tentative while fewer than 3 updates could have pushed `age` to 3,
confirmed as soon as `age` reaches 3 during an update. -/
theorem applyDets_state (ds : List Det) (t : TrackedObject) (ht : t.state = .tentative) :
    (applyDets t ds).state =
      if ds = [] then .tentative
      else if 3 ≤ t.age + ds.length then .confirmed else .tentative := by
  induction ds generalizing t with
  | nil => simpa using ht
  | cons d ds ih =>
    show (applyDets (applyDet t d) ds).state = _
    by_cases h3 : 3 ≤ t.age + 1
    · have hst : (applyDet t d).state = .confirmed := by
        unfold applyDet
        dsimp only
        rw [if_pos ⟨h3, ht⟩]
      rw [applyDets_state_confirmed _ _ hst, if_neg (List.cons_ne_nil d ds),
        if_pos (by simp only [List.length_cons]; omega)]
    · have hst : (applyDet t d).state = .tentative := by
        unfold applyDet
        dsimp only
        rw [if_neg (fun hc => h3 hc.1)]
        exact ht
      have hage : (applyDet t d).age = t.age + 1 := applyDet_age t d
      rw [ih (applyDet t d) hst]
      rcases Decidable.em (ds = []) with hds | hds
      · subst hds
        rw [if_pos rfl, if_neg (List.cons_ne_nil d [])]
        rw [if_neg (by simp only [List.length_cons, List.length_nil]; omega)]
      · rw [if_neg hds, if_neg (List.cons_ne_nil d ds), hage]
        rcases Decidable.em (3 ≤ t.age + (d :: ds).length) with hc | hc
        · rw [if_pos (by simp only [List.length_cons] at hc ⊢; omega), if_pos hc]
        · rw [if_neg (by simp only [List.length_cons] at hc ⊢; omega), if_neg hc]

/-- The list returned by `SimpleTracker.update` is exactly the post-purge track
list filtered by `age ≥ min_hits` (NOT by `state == "confirmed"`). -/
theorem simpleUpdate_output (st : SimpleState) (dets : List Det)
    (st' : SimpleState) (out : List TrackedObject)
    (h : simpleUpdate st dets = .ok (st', out)) :
    out = st'.tracks.filter (fun t => st'.min_hits ≤ t.age) ∧
    st'.min_hits = st.min_hits ∧ st'.max_age = st.max_age := by
  unfold simpleUpdate at h
  dsimp only at h
  split at h
  · exact absurd h (by simp)
  · simp only [Except.ok.injEq, Prod.mk.injEq] at h
    obtain ⟨hst, hout⟩ := h
    subst hst
    subst hout
    exact ⟨rfl, rfl, rfl⟩

theorem mem_entryList {n m : ℕ} {p : ℕ × ℕ} : p ∈ entryList n m ↔ p.1 < n ∧ p.2 < m := by
  unfold entryList
  simp only [List.mem_flatMap, List.mem_map, List.mem_range]
  constructor
  · rintro ⟨i, hi, j, hj, rfl⟩
    exact ⟨hi, hj⟩
  · rintro ⟨h1, h2⟩
    exact ⟨p.1, h1, p.2, h2, rfl⟩

theorem entryList_m_zero (n : ℕ) : entryList n 0 = [] := by
  rw [List.eq_nil_iff_forall_not_mem]
  intro p hp
  exact absurd (mem_entryList.mp hp).2 (by omega)

theorem entryList_ne_nil {n m : ℕ} (hn : n ≠ 0) (hm : m ≠ 0) : entryList n m ≠ [] := by
  intro h
  have : ((0, 0) : ℕ × ℕ) ∈ entryList n m := mem_entryList.mpr ⟨by omega, by omega⟩
  rw [h] at this
  exact absurd this (List.not_mem_nil _)

theorem foldl_max_ub (f : ℕ × ℕ → ℚ) (l : List (ℕ × ℕ)) (a : ℚ) :
    a ≤ l.foldl (fun acc q => max acc (f q)) a ∧
    ∀ q ∈ l, f q ≤ l.foldl (fun acc q => max acc (f q)) a := by
  induction l generalizing a with
  | nil => exact ⟨le_refl a, by simp⟩
  | cons q l ih =>
    obtain ⟨h1, h2⟩ := ih (max a (f q))
    refine ⟨le_trans (le_max_left a (f q)) h1, ?_⟩
    intro q' hq'
    rcases List.mem_cons.mp hq' with rfl | hq'
    · exact le_trans (le_max_right a (f q')) h1
    · exact h2 q' hq'

theorem foldl_max_attained (f : ℕ × ℕ → ℚ) (l : List (ℕ × ℕ)) (a : ℚ) :
    l.foldl (fun acc q => max acc (f q)) a = a ∨
    ∃ p ∈ l, l.foldl (fun acc q => max acc (f q)) a = f p := by
  induction l generalizing a with
  | nil => exact Or.inl rfl
  | cons q l ih =>
    rcases ih (max a (f q)) with h | ⟨p, hp, h⟩
    · rcases le_total (f q) a with hle | hle
      · exact Or.inl (by rw [List.foldl_cons, h, max_eq_left hle])
      · exact Or.inr ⟨q, List.mem_cons_self q l, by rw [List.foldl_cons, h, max_eq_right hle]⟩
    · exact Or.inr ⟨p, List.mem_cons_of_mem q hp, by rw [List.foldl_cons, h]⟩

theorem matMax_spec {A : ℕ → ℕ → ℚ} {n m : ℕ} {mx : ℚ} (h : matMax A n m = some mx) :
    (∃ p ∈ entryList n m, A p.1 p.2 = mx) ∧ ∀ p ∈ entryList n m, A p.1 p.2 ≤ mx := by
  unfold matMax at h
  rcases hE : entryList n m with _ | ⟨p, ps⟩
  · rw [hE] at h
    cases h
  · rw [hE] at h
    injection h with h
    subst h
    obtain ⟨h1, h2⟩ := foldl_max_ub (fun q => A q.1 q.2) ps (A p.1 p.2)
    constructor
    · rcases foldl_max_attained (fun q => A q.1 q.2) ps (A p.1 p.2) with h | ⟨q, hq, h⟩
      · exact ⟨p, List.mem_cons_self p ps, h.symm⟩
      · exact ⟨q, List.mem_cons_of_mem p hq, h.symm⟩
    · intro q hq
      rcases List.mem_cons.mp hq with rfl | hq
      · exact h1
      · exact h2 q hq

theorem matMax_isSome {A : ℕ → ℕ → ℚ} {n m : ℕ} (hn : n ≠ 0) (hm : m ≠ 0) :
    ∃ mx, matMax A n m = some mx := by
  unfold matMax
  rcases hE : entryList n m with _ | ⟨p, ps⟩
  · exact absurd hE (entryList_ne_nil hn hm)
  · exact ⟨_, rfl⟩

/-- Number of matrix rows still holding an entry at or above the threshold:
the termination measure of the source's greedy `while True` loop. -/
def hotRows (θ : ℚ) (A : ℕ → ℕ → ℚ) (n m : ℕ) : ℕ :=
  ((Finset.range n).filter fun i => ∃ j ∈ Finset.range m, θ ≤ A i j).card

theorem hotRows_le (θ : ℚ) (A : ℕ → ℕ → ℚ) (n m : ℕ) : hotRows θ A n m ≤ n := by
  unfold hotRows
  exact le_trans (Finset.card_filter_le _ _) (by simp)

theorem hotRows_erase_lt (θ : ℚ) (A : ℕ → ℕ → ℚ) (n m i j : ℕ)
    (hθ : -1 < θ) (hi : i < n) (hj : j < m) (hv : θ ≤ A i j) :
    hotRows θ (fun a b => if a = i ∨ b = j then -1 else A a b) n m < hotRows θ A n m := by
  apply Finset.card_lt_card
  rw [Finset.ssubset_iff_of_subset]
  · refine ⟨i, ?_, ?_⟩
    · rw [Finset.mem_filter]
      exact ⟨Finset.mem_range.mpr hi, j, Finset.mem_range.mpr hj, hv⟩
    · rw [Finset.mem_filter]
      rintro ⟨-, j', -, hle⟩
      dsimp only at hle
      rw [if_pos (Or.inl rfl)] at hle
      linarith
  · intro i' hi'
    rw [Finset.mem_filter] at hi' ⊢
    obtain ⟨hr, j', hj', hle⟩ := hi'
    dsimp only at hle
    have hne : ¬(i' = i ∨ j' = j) := by
      intro hc
      rw [if_pos hc] at hle
      linarith
    rw [if_neg hne] at hle
    exact ⟨hr, j', hj', hle⟩

theorem greedyLoop_isSome (θ : ℚ) (dets : List Det) (n m : ℕ) (hθ : -1 < θ)
    (hn : n ≠ 0) (hm : m ≠ 0) (hmdets : m ≤ dets.length) :
    ∀ fuel (A : ℕ → ℕ → ℚ) (tracks : List TrackedObject) (mT mD : List ℕ),
      hotRows θ A n m < fuel →
      (greedyLoop θ dets n m fuel A tracks mT mD).isSome := by
  intro fuel
  induction fuel with
  | zero => exact fun A _ _ _ hlt => absurd hlt (by omega)
  | succ fuel ih =>
    intro A tracks mT mD hlt
    obtain ⟨mx, hmx⟩ := matMax_isSome (A := A) hn hm
    unfold greedyLoop
    rw [hmx]
    dsimp only
    by_cases hbelow : mx < θ
    · rw [if_pos hbelow]
      rfl
    · rw [if_neg hbelow]
      obtain ⟨⟨p, hp, hpeq⟩, _⟩ := matMax_spec hmx
      have hfind : (argmaxPos A n m mx).isSome := by
        unfold argmaxPos
        rw [List.find?_isSome]
        exact ⟨p, hp, by simp [hpeq]⟩
      obtain ⟨q, hq⟩ := Option.isSome_iff_exists.mp hfind
      obtain ⟨i, j⟩ := q
      rw [hq]
      dsimp only
      have hqmem : (i, j) ∈ entryList n m := List.mem_of_find?_eq_some hq
      have hqval : A i j = mx := by
        have := List.find?_some hq
        simpa using this
      obtain ⟨hin, hjm⟩ := mem_entryList.mp hqmem
      obtain ⟨d, hd⟩ : ∃ d, dets[j]? = some d :=
        ⟨dets[j], List.getElem?_eq_getElem (by omega)⟩
      rw [hd]
      dsimp only
      apply ih
      have hdec := hotRows_erase_lt θ A n m i j hθ hin hjm
        (hqval ▸ not_lt.mp hbelow)
      omega

theorem simpleUpdate_empty_error (st : SimpleState) (h : st.tracks ≠ []) :
    simpleUpdate st [] = .error () := by
  unfold simpleUpdate
  dsimp only
  rw [if_neg h]
  have hE : matMax (iouMatrix st []) st.tracks.length (List.length ([] : List Det)) = none := by
    unfold matMax
    rw [List.length_nil, entryList_m_zero]
  unfold greedyLoop
  rw [hE]

theorem simpleUpdate_isOk (st : SimpleState) (dets : List Det)
    (hθ : -1 < st.iou_threshold) (h : dets ≠ [] ∨ st.tracks = []) :
    ∃ r, simpleUpdate st dets = .ok r := by
  unfold simpleUpdate
  dsimp only
  by_cases htr : st.tracks = []
  · rw [if_pos htr]
    exact ⟨_, rfl⟩
  · rw [if_neg htr]
    have hdets : dets ≠ [] := h.resolve_right htr
    have hsome := greedyLoop_isSome st.iou_threshold dets st.tracks.length dets.length hθ
      (by simpa using htr) (by simpa using hdets) (le_refl _)
      (st.tracks.length + 1) (iouMatrix st dets) st.tracks [] []
      (by
        have := hotRows_le st.iou_threshold (iouMatrix st dets) st.tracks.length dets.length
        omega)
    obtain ⟨⟨tracks1, mT, mD⟩, hgl⟩ := Option.isSome_iff_exists.mp hsome
    rw [hgl]
    exact ⟨_, rfl⟩

/-! Concrete four-step run of `SimpleTracker` (default configuration).
Step 1 creates a track from detection `dA`; steps 2-4 send detection `dB`,
which never overlaps `dA`'s box, so the first track is missed three times
while a second track is created at step 2 and matched at steps 3-4. -/

/-- Detection with box `[0,0,10,10]`, confidence 0.9, no features. -/
def dA : Det := ⟨⟨0, 0, 10, 10⟩, 9/10, none⟩

/-- Detection with box `[100,100,110,110]`, confidence 0.9, no features. -/
def dB : Det := ⟨⟨100, 100, 110, 110⟩, 9/10, none⟩

/-- The first track of the scenario after being missed `k` times. -/
def tA (k : ℕ) : TrackedObject :=
  ⟨.T 0, 0, 0, ⟨0, 0, 10, 10⟩, 9/10, none, [(5, 5)], k, k, .tentative⟩

/-- The second track of the scenario after `age` matched updates. -/
def tB (traj : List (ℚ × ℚ)) (age : ℕ) : TrackedObject :=
  ⟨.T 1, 1, 0, ⟨100, 100, 110, 110⟩, 9/10, none, traj, age, 0, .tentative⟩

def stC1a : SimpleState := { tracks := [tA 0], next_id := 1 }

def stC1b : SimpleState := { tracks := [tA 1, tB [(105, 105)] 0], next_id := 2 }

def stC1c : SimpleState := { tracks := [tA 2, tB [(105, 105), (105, 105)] 1], next_id := 2 }

def stC1d : SimpleState :=
  { tracks := [tA 3, tB [(105, 105), (105, 105), (105, 105)] 2], next_id := 2 }

theorem c1_step1 : simpleUpdate {} [dA] = .ok (stC1a, []) := by
  norm_num [simpleUpdate, createTracks, newTrack, pushTraj, BBox.center, dA, stC1a, tA,
    List.enum, List.enumFrom]

theorem c1_step2 : simpleUpdate stC1a [dB] = .ok (stC1b, []) := by
  norm_num [simpleUpdate, iouMatrix, greedyLoop, matMax, argmaxPos, entryList, modifyIdx,
    createTracks, applyDet, markMissed, newTrack, pushTraj, calculateIou, unionArea,
    interArea, boxArea, min_def, max_def, BBox.center, dA, dB, stC1a, stC1b, tA, tB,
    List.enum, List.enumFrom, List.range_succ, List.cons_ne_nil, List.filter_cons]

theorem c1_step3 : simpleUpdate stC1b [dB] = .ok (stC1c, []) := by
  norm_num [simpleUpdate, iouMatrix, greedyLoop, matMax, argmaxPos, entryList, modifyIdx,
    createTracks, applyDet, markMissed, newTrack, pushTraj, calculateIou, unionArea,
    interArea, boxArea, min_def, max_def, BBox.center, dB, stC1b, stC1c, tA, tB,
    List.enum, List.enumFrom, List.range_succ, List.cons_ne_nil, List.filter_cons]

theorem c1_step4 : simpleUpdate stC1c [dB] = .ok (stC1d, [tA 3]) := by
  norm_num [simpleUpdate, iouMatrix, greedyLoop, matMax, argmaxPos, entryList, modifyIdx,
    createTracks, applyDet, markMissed, newTrack, pushTraj, calculateIou, unionArea,
    interArea, boxArea, min_def, max_def, BBox.center, dB, stC1c, stC1d, tA, tB,
    List.enum, List.enumFrom, List.range_succ, List.cons_ne_nil, List.filter_cons]

/-! ### MultiCameraTracker (src/ai/tracker.py, simple-tracker backend)

`np.linalg.norm` is kept abstract as a parameter `norm : List ℚ → ℚ`;
everything else follows the source. -/

/-- The `1e-8` regularizer added to the norms in
`_calculate_feature_similarity`. -/
def normEps : ℚ := 1 / 10 ^ 8

/-- `np.dot` on equal-length vectors. -/
def dotQ (f1 f2 : List ℚ) : ℚ := (List.zipWith (· * ·) f1 f2).sum

/-- `MultiCameraTracker._calculate_feature_similarity`:
`np.dot(f1 / (norm(f1) + 1e-8), f2 / (norm(f2) + 1e-8))`. -/
def calcFeatureSimilarity (norm : List ℚ → ℚ) (f1 f2 : List ℚ) : ℚ :=
  dotQ (f1.map (· / (norm f1 + normEps))) (f2.map (· / (norm f2 + normEps)))

/-- Exact cosine similarity `dot(f1, f2) / (‖f1‖ · ‖f2‖)`, phrased through the
norm values `n1 = ‖f1‖`, `n2 = ‖f2‖` (what the spec's "cosine similarity"
denotes; the code computes `calcFeatureSimilarity` instead). -/
def cosineSimWithNorms (f1 f2 : List ℚ) (n1 n2 : ℚ) : ℚ :=
  dotQ f1 f2 / (n1 * n2)

/-- Sum of squares of a vector; `r` is the Euclidean norm of `v` iff
`0 ≤ r` and `r * r = sumSq v`. -/
def sumSq (v : List ℚ) : ℚ := (v.map fun x => x * x).sum

/-- Prototype update on a ReID match:
`0.7 * self.global_features[best] + 0.3 * features`. -/
def emaProto (proto f : List ℚ) : List ℚ :=
  List.zipWith (fun a b => 7/10 * a + 3/10 * b) proto f

/-- `MultiCameraTracker` configuration fields. -/
structure MCConfig where
  max_age : ℕ := 30
  min_hits : ℕ := 3
  reid_threshold : ℚ := 7/10
deriving DecidableEq, Repr

/-- `MultiCameraTracker` state: per-camera trackers, the
`local_to_global` binding map keyed by `(camera_id, local_id)`, the
`global_features` prototype registry keyed by the numeric part of `"F<n>"`,
and the `next_global_id` counter. -/
structure MCState where
  cfg : MCConfig := {}
  trackers : List (ℕ × SimpleState) := []
  local_to_global : List ((ℕ × ℕ) × ℕ) := []
  global_features : List (ℕ × List ℚ) := []
  next_global_id : ℕ := 0
deriving DecidableEq, Repr

/-- Fresh `MultiCameraTracker` (constructor). -/
def mcInit (cfg : MCConfig) : MCState := { cfg := cfg }

/-- The best-prototype scan of `_assign_global_id`: iterate the registry in
insertion order keeping the first strict improvement over both the running
best (initially `0.0`) and the threshold; the winning prototype is carried
along with its id. -/
def bestMatch (norm : List ℚ → ℚ) (θ : ℚ) (f : List ℚ)
    (gfs : List (ℕ × List ℚ)) : Option (ℕ × List ℚ) × ℚ :=
  gfs.foldl (fun acc p =>
    let sim := calcFeatureSimilarity norm f p.2
    if acc.2 < sim ∧ θ < sim then (some p, sim) else acc) (none, 0)

/-- `MultiCameraTracker._assign_global_id`.  Returns the numeric part of the
assigned `"F<n>"` id together with the updated state.  The source's single
test `features is None or len(global_features) == 0` is split into the two
branches below (identical behavior: with `features = None` nothing is seeded
either way). -/
def assignGlobalId (norm : List ℚ → ℚ) (st : MCState) (lid cam : ℕ)
    (feats : Option (List ℚ)) : ℕ × MCState :=
  match lookupA (cam, lid) st.local_to_global with
  | some g => (g, st)
  | none =>
    match feats with
    | none =>
      (st.next_global_id,
        { st with
          local_to_global := setA (cam, lid) st.next_global_id st.local_to_global,
          next_global_id := st.next_global_id + 1 })
    | some f =>
      if st.global_features = [] then
        (st.next_global_id,
          { st with
            local_to_global := setA (cam, lid) st.next_global_id st.local_to_global,
            global_features := setA st.next_global_id f st.global_features,
            next_global_id := st.next_global_id + 1 })
      else
        match bestMatch norm st.cfg.reid_threshold f st.global_features with
        | (some (gid, proto), _) =>
          (gid,
            { st with
              local_to_global := setA (cam, lid) gid st.local_to_global,
              global_features := setA gid (emaProto proto f) st.global_features })
        | (none, _) =>
          (st.next_global_id,
            { st with
              local_to_global := setA (cam, lid) st.next_global_id st.local_to_global,
              global_features := setA st.next_global_id f st.global_features,
              next_global_id := st.next_global_id + 1 })

/-- A detection as handed to `MultiCameraTracker.update` (only the fields the
simple-tracker path reads: `det.bbox` and `det.confidence`). -/
structure DetIn where
  bbox : BBox
  confidence : ℚ
deriving DecidableEq, Repr

/-- `MultiCameraTracker._get_or_create_tracker` (simple backend):
`SimpleTracker(max_age=self.max_age, min_hits=self.min_hits)`, with
`iou_threshold` left at its default. -/
def getOrCreateTracker (st : MCState) (cam : ℕ) : SimpleState × MCState :=
  match lookupA cam st.trackers with
  | some tr => (tr, st)
  | none =>
    let tr : SimpleState := { max_age := st.cfg.max_age, min_hits := st.cfg.min_hits }
    (tr, { st with trackers := st.trackers ++ [(cam, tr)] })

/-- The two field writes `track.global_id = global_id; track.camera_id =
camera_id` performed on each confirmed track in `MultiCameraTracker.update`. -/
def retag (t : TrackedObject) (cam g : ℕ) : TrackedObject :=
  { t with global_id := GId.F g, camera_id := cam }

/-- The per-track loop at the end of `MultiCameraTracker.update` (simple
backend): assign a global id from `(track.local_id, camera_id,
track.features)`, then overwrite `track.global_id` and `track.camera_id`. -/
def assignAll (norm : List ℚ → ℚ) (cam : ℕ) (st : MCState) :
    List TrackedObject → MCState × List TrackedObject
  | [] => (st, [])
  | t :: ts =>
    let r := assignGlobalId norm st t.local_id cam t.features
    let rest := assignAll norm cam r.2 ts
    (rest.1, retag t cam r.1 :: rest.2)

/-- `MultiCameraTracker.update` with the simple-tracker backend, iterating the
`detections_per_camera` items: cameras with empty detection lists are skipped,
the per-camera tracker runs on `(det.bbox, det.confidence, None)` triples, and
the confirmed tracks get global ids. -/
def multiUpdate (norm : List ℚ → ℚ) (st : MCState) :
    List (ℕ × List DetIn) → Except Unit (MCState × List TrackedObject)
  | [] => .ok (st, [])
  | (cam, dets) :: rest =>
    if dets = [] then multiUpdate norm st rest
    else
      let tr0 := getOrCreateTracker st cam
      let det_list : List Det := dets.map fun d => ⟨d.bbox, d.confidence, none⟩
      match simpleUpdate tr0.1 det_list with
      | .error e => .error e
      | .ok (tr', tracks) =>
        let st2 := { tr0.2 with trackers := setA cam tr' tr0.2.trackers }
        let ro := assignAll norm cam st2 tracks
        match multiUpdate norm ro.1 rest with
        | .error e => .error e
        | .ok (st4, outs') => .ok (st4, ro.2 ++ outs')

/-- A sequence of synchronized time-steps processed by
`MultiCameraTracker.update`, collecting each step's returned list. -/
def mcRun (norm : List ℚ → ℚ) (st : MCState) :
    List (List (ℕ × List DetIn)) → Except Unit (MCState × List (List TrackedObject))
  | [] => .ok (st, [])
  | inp :: rest =>
    match multiUpdate norm st inp with
    | .error e => .error e
    | .ok (st', out) =>
      match mcRun norm st' rest with
      | .error e => .error e
      | .ok (st'', outs) => .ok (st'', out :: outs)

theorem lookupA_setA {κ β : Type} [DecidableEq κ] (k k' : κ) (v : β) (l : List (κ × β)) :
    lookupA k' (setA k v l) = if k = k' then some v else lookupA k' l := by
  induction l with
  | nil =>
    by_cases h : k = k'
    · simp [setA, lookupA, h]
    · simp [setA, lookupA, h]
  | cons p rest ih =>
    obtain ⟨k0, v0⟩ := p
    by_cases h0 : k0 = k
    · subst h0
      by_cases h : k0 = k'
      · simp [setA, lookupA, h]
      · simp [setA, lookupA, h]
    · by_cases h : k0 = k'
      · subst h
        have : ¬ k = k0 := fun hc => h0 hc.symm
        simp [setA, lookupA, h0, this]
      · simp [setA, lookupA, h0, h, ih]

theorem lookupA_append_single {κ β : Type} [DecidableEq κ] (k k0 : κ) (v : β)
    (l : List (κ × β)) :
    lookupA k (l ++ [(k0, v)]) =
      match lookupA k l with
      | some w => some w
      | none => if k0 = k then some v else none := by
  induction l with
  | nil => simp [lookupA]
  | cons p rest ih =>
    obtain ⟨k1, v1⟩ := p
    by_cases h : k1 = k
    · simp [lookupA, h]
    · simpa [lookupA, h] using ih

/-- All global ids bound in the `local_to_global` map are below the counter. -/
def BindsBounded (st : MCState) : Prop :=
  ∀ k g, lookupA k st.local_to_global = some g → g < st.next_global_id

/-- No two `(camera_id, local_id)` keys share a global id — true as long as
no re-identification match is ever recorded (the simple-tracker path always
resolves with `features = None`). -/
def BindsInjective (st : MCState) : Prop :=
  ∀ k1 k2 g, lookupA k1 st.local_to_global = some g →
    lookupA k2 st.local_to_global = some g → k1 = k2

/-- Every track held by every per-camera tracker carries no features. -/
def NoFeatT (trs : List (ℕ × SimpleState)) : Prop :=
  ∀ cam tr, lookupA cam trs = some tr → ∀ t ∈ tr.tracks, t.features = none

/-- Specification of `_assign_global_id` when called with `features = None`:
the key gets bound (to its prior id if present, else to a fresh one), old
bindings survive unchanged, trackers and config are untouched, and the
boundedness / injectivity invariants are preserved. -/
theorem assignGlobalId_none (norm : List ℚ → ℚ) (st : MCState) (lid cam : ℕ) :
    lookupA (cam, lid) (assignGlobalId norm st lid cam none).2.local_to_global =
      some (assignGlobalId norm st lid cam none).1 ∧
    (∀ k g, lookupA k st.local_to_global = some g →
      lookupA k (assignGlobalId norm st lid cam none).2.local_to_global = some g) ∧
    st.next_global_id ≤ (assignGlobalId norm st lid cam none).2.next_global_id ∧
    (assignGlobalId norm st lid cam none).2.trackers = st.trackers ∧
    (assignGlobalId norm st lid cam none).2.cfg = st.cfg ∧
    (BindsBounded st → BindsBounded (assignGlobalId norm st lid cam none).2) ∧
    (BindsBounded st → BindsInjective st →
      BindsInjective (assignGlobalId norm st lid cam none).2) := by
  unfold assignGlobalId
  rcases hL : lookupA (cam, lid) st.local_to_global with _ | g
  · dsimp only
    refine ⟨?_, ?_, ?_, rfl, rfl, ?_, ?_⟩
    · rw [lookupA_setA, if_pos rfl]
    · intro k g hk
      rw [lookupA_setA]
      rcases Decidable.em ((cam, lid) = k) with hks | hks
      · subst hks
        rw [hL] at hk
        cases hk
      · rw [if_neg hks]
        exact hk
    · exact Nat.le_succ _
    · intro hB k g hk
      rw [lookupA_setA] at hk
      rcases Decidable.em ((cam, lid) = k) with hks | hks
      · rw [if_pos hks] at hk
        injection hk with hk
        subst hk
        exact Nat.lt_succ_self _
      · rw [if_neg hks] at hk
        exact lt_trans (hB k g hk) (Nat.lt_succ_self _)
    · intro hB hI k1 k2 g hk1 hk2
      rw [lookupA_setA] at hk1 hk2
      rcases Decidable.em ((cam, lid) = k1) with h1 | h1 <;>
        rcases Decidable.em ((cam, lid) = k2) with h2 | h2
      · exact h1 ▸ h2 ▸ rfl
      · rw [if_pos h1] at hk1
        rw [if_neg h2] at hk2
        injection hk1 with hk1
        exact absurd (hk1 ▸ hB k2 g hk2) (lt_irrefl _)
      · rw [if_neg h1] at hk1
        rw [if_pos h2] at hk2
        injection hk2 with hk2
        exact absurd (hk2 ▸ hB k1 g hk1) (lt_irrefl _)
      · rw [if_neg h1] at hk1
        rw [if_neg h2] at hk2
        exact hI k1 k2 g hk1 hk2
  · dsimp only
    exact ⟨hL, fun k g hk => hk, le_refl _, rfl, rfl, fun h => h, fun _ h => h⟩

/-- Specification of the global-id assignment loop over a feature-less track
list: invariants are preserved, old bindings survive, and every emitted track
records its camera and a bound `F`-id. -/
theorem assignAll_spec (norm : List ℚ → ℚ) (cam : ℕ) (st : MCState)
    (tracks : List TrackedObject) (hfeat : ∀ t ∈ tracks, t.features = none) :
    (∀ k g, lookupA k st.local_to_global = some g →
      lookupA k (assignAll norm cam st tracks).1.local_to_global = some g) ∧
    (assignAll norm cam st tracks).1.trackers = st.trackers ∧
    (assignAll norm cam st tracks).1.cfg = st.cfg ∧
    st.next_global_id ≤ (assignAll norm cam st tracks).1.next_global_id ∧
    (BindsBounded st → BindsBounded (assignAll norm cam st tracks).1) ∧
    (BindsBounded st → BindsInjective st →
      BindsInjective (assignAll norm cam st tracks).1) ∧
    (∀ t' ∈ (assignAll norm cam st tracks).2, t'.camera_id = cam ∧
      ∃ g, t'.global_id = GId.F g ∧
        lookupA (cam, t'.local_id) (assignAll norm cam st tracks).1.local_to_global
          = some g) := by
  induction tracks generalizing st with
  | nil =>
    exact ⟨fun k g hk => hk, rfl, rfl, le_refl _, fun h => h, fun _ h => h, by simp [assignAll]⟩
  | cons t ts ih =>
    have hft : t.features = none := hfeat t (List.mem_cons_self t ts)
    have hfts : ∀ t' ∈ ts, t'.features = none :=
      fun t' ht' => hfeat t' (List.mem_cons_of_mem t ht')
    obtain ⟨haB, haExt, haNext, haTr, haCfg, haBB, haBI⟩ :=
      assignGlobalId_none norm st t.local_id cam
    obtain ⟨ihExt, ihTr, ihCfg, ihNext, ihBB, ihBI, ihOut⟩ :=
      ih (assignGlobalId norm st t.local_id cam none).2 hfts
    have hstep : assignAll norm cam st (t :: ts) =
        ((assignAll norm cam (assignGlobalId norm st t.local_id cam none).2 ts).1,
          retag t cam (assignGlobalId norm st t.local_id cam none).1 ::
            (assignAll norm cam (assignGlobalId norm st t.local_id cam none).2 ts).2) := by
      simp only [assignAll]
      rw [hft]
    rw [hstep]
    refine ⟨?_, ?_, ?_, ?_, ?_, ?_, ?_⟩
    · exact fun k g hk => ihExt k g (haExt k g hk)
    · exact ihTr.trans haTr
    · exact ihCfg.trans haCfg
    · exact le_trans haNext ihNext
    · exact fun hB => ihBB (haBB hB)
    · exact fun hB hI => ihBI (haBB hB) (haBI hB hI)
    · intro t' ht'
      rcases List.mem_cons.mp ht' with rfl | ht'
      · refine ⟨rfl, (assignGlobalId norm st t.local_id cam none).1, rfl, ?_⟩
        exact ihExt _ _ haB
      · exact ihOut t' ht'

theorem mem_enum_snd {α : Type} {p : ℕ × α} {l : List α} (h : p ∈ l.enum) : p.2 ∈ l := by
  have he := List.enum_map_snd l
  rw [← he]
  exact List.mem_map_of_mem Prod.snd h

theorem applyDet_features_none (t : TrackedObject) (d : Det)
    (hd : d.features = none) (ht : t.features = none) :
    (applyDet t d).features = none := by
  unfold applyDet
  dsimp only
  rw [hd]
  split <;> exact ht

theorem markMissed_features (t : TrackedObject) : (markMissed t).features = t.features := rfl

theorem createTracks_noFeat (dets : List (ℕ × Det)) (mD : List ℕ)
    (hdets : ∀ p ∈ dets, p.2.features = none) :
    ∀ (tracks : List TrackedObject) (next : ℕ),
      (∀ t ∈ tracks, t.features = none) →
      ∀ t ∈ (createTracks dets mD tracks next).1, t.features = none := by
  induction dets with
  | nil => exact fun tracks next htr => htr
  | cons p rest ih =>
    obtain ⟨j, d⟩ := p
    intro tracks next htr
    have hd : d.features = none := hdets (j, d) (List.mem_cons_self _ _)
    have hrest : ∀ p ∈ rest, p.2.features = none :=
      fun p hp => hdets p (List.mem_cons_of_mem _ hp)
    by_cases hj : j ∈ mD
    · rw [show createTracks ((j, d) :: rest) mD tracks next
          = createTracks rest mD tracks next by simp [createTracks, hj]]
      exact ih hrest tracks next htr
    · rw [show createTracks ((j, d) :: rest) mD tracks next
          = createTracks rest mD
              (tracks ++ [newTrack (.T next) next 0 d.bbox d.confidence d.features])
              (next + 1) by simp [createTracks, hj]]
      refine ih hrest _ _ ?_
      intro t ht
      rcases List.mem_append.mp ht with ht | ht
      · exact htr t ht
      · rcases List.mem_singleton.mp ht with rfl
        exact hd

theorem greedyLoop_noFeat (θ : ℚ) (dets : List Det) (n m : ℕ)
    (hdets : ∀ d ∈ dets, d.features = none) :
    ∀ (fuel : ℕ) (A : ℕ → ℕ → ℚ) (tracks : List TrackedObject) (mT mD : List ℕ)
      (tracks' : List TrackedObject) (mT' mD' : List ℕ),
      greedyLoop θ dets n m fuel A tracks mT mD = some (tracks', mT', mD') →
      (∀ t ∈ tracks, t.features = none) → ∀ t ∈ tracks', t.features = none := by
  intro fuel
  induction fuel with
  | zero => intro A tracks mT mD tracks' mT' mD' h; cases h
  | succ fuel ih =>
    intro A tracks mT mD tracks' mT' mD' h htr
    unfold greedyLoop at h
    rcases hmx : matMax A n m with _ | mx
    · rw [hmx] at h
      cases h
    · rw [hmx] at h
      dsimp only at h
      split at h
      · simp only [Option.some.injEq, Prod.mk.injEq] at h
        obtain ⟨h1, -, -⟩ := h
        subst h1
        exact htr
      · rcases hfind : argmaxPos A n m mx with _ | ⟨i, j⟩
        · rw [hfind] at h
          cases h
        · rw [hfind] at h
          dsimp only at h
          rcases hd : dets[j]? with _ | d
          · rw [hd] at h
            cases h
          · rw [hd] at h
            dsimp only at h
            refine ih _ _ _ _ _ _ _ h ?_
            intro t ht
            unfold modifyIdx at ht
            rcases hg : tracks[i]? with _ | t0
            · rw [hg] at ht
              exact htr t ht
            · rw [hg] at ht
              rcases List.mem_or_eq_of_mem_set ht with ht | rfl
              · exact htr t ht
              · have hdf : d.features = none := by
                  have hmem : d ∈ dets := by
                    have := List.getElem?_eq_some_iff.mp hd
                    obtain ⟨hlt, hEq⟩ := this
                    exact hEq ▸ List.getElem_mem hlt
                  exact hdets d hmem
                have ht0 : t0.features = none := by
                  have hmem : t0 ∈ tracks := by
                    have := List.getElem?_eq_some_iff.mp hg
                    obtain ⟨hlt, hEq⟩ := this
                    exact hEq ▸ List.getElem_mem hlt
                  exact htr t0 hmem
                exact applyDet_features_none t0 d hdf ht0

theorem simpleUpdate_noFeat (st : SimpleState) (dets : List Det)
    (st' : SimpleState) (out : List TrackedObject)
    (hdets : ∀ d ∈ dets, d.features = none)
    (htr : ∀ t ∈ st.tracks, t.features = none)
    (h : simpleUpdate st dets = .ok (st', out)) :
    (∀ t ∈ st'.tracks, t.features = none) ∧ ∀ t ∈ out, t.features = none := by
  have hde : ∀ p ∈ dets.enum, p.2.features = none :=
    fun p hp => hdets p.2 (mem_enum_snd hp)
  suffices h1 : ∀ t ∈ st'.tracks, t.features = none by
    refine ⟨h1, fun t ht => h1 t ?_⟩
    obtain ⟨hout, -, -⟩ := simpleUpdate_output st dets st' out h
    rw [hout] at ht
    exact (List.mem_filter.mp ht).1
  unfold simpleUpdate at h
  dsimp only at h
  split at h
  · exact absurd h (by simp)
  case _ tracks3 next' heq =>
    simp only [Except.ok.injEq, Prod.mk.injEq] at h
    obtain ⟨hst, -⟩ := h
    subst hst
    intro t ht
    dsimp only at ht
    have ht3 : t ∈ tracks3 := (List.mem_filter.mp ht).1
    have h3 : ∀ t ∈ tracks3, t.features = none := by
      split at heq
      · injection heq with heq
        intro t ht
        have := createTracks_noFeat dets.enum [] hde st.tracks st.next_id htr
        rw [heq] at this
        exact this t ht
      · split at heq
        · cases heq
        case _ tracks1 mT mD hgl =>
          injection heq with heq
          intro t ht
          have hmm : ∀ t ∈ tracks1.enum.map fun p =>
              if p.1 ∈ mT then p.2 else markMissed p.2, t.features = none := by
            intro t ht
            obtain ⟨p, hp, hpe⟩ := List.mem_map.mp ht
            have hp2 : p.2.features = none :=
              greedyLoop_noFeat st.iou_threshold dets st.tracks.length dets.length hdets
                _ _ _ _ _ _ _ _ hgl htr p.2 (mem_enum_snd hp)
            subst hpe
            by_cases hm : p.1 ∈ mT
            · rw [if_pos hm]
              exact hp2
            · rw [if_neg hm]
              exact hp2
          have := createTracks_noFeat dets.enum mD hde _ st.next_id hmm
          rw [heq] at this
          exact this t ht
    exact h3 t ht3

theorem BindsBounded_of_eq {s1 s2 : MCState}
    (h1 : s2.local_to_global = s1.local_to_global)
    (h2 : s2.next_global_id = s1.next_global_id)
    (h : BindsBounded s1) : BindsBounded s2 := by
  unfold BindsBounded at h ⊢
  rw [h1, h2]
  exact h

theorem BindsInjective_of_eq {s1 s2 : MCState}
    (h1 : s2.local_to_global = s1.local_to_global)
    (h : BindsInjective s1) : BindsInjective s2 := by
  unfold BindsInjective at h ⊢
  rw [h1]
  exact h

theorem NoFeatT_setA (trs : List (ℕ × SimpleState)) (cam : ℕ) (tr : SimpleState)
    (hNF : NoFeatT trs) (htr : ∀ t ∈ tr.tracks, t.features = none) :
    NoFeatT (setA cam tr trs) := by
  intro cam' tr' h
  rw [lookupA_setA] at h
  by_cases hc : cam = cam'
  · rw [if_pos hc] at h
    injection h with h
    subst h
    exact htr
  · rw [if_neg hc] at h
    exact hNF cam' tr' h

theorem getOrCreateTracker_spec (st : MCState) (cam : ℕ) (hNF : NoFeatT st.trackers) :
    (∀ t ∈ (getOrCreateTracker st cam).1.tracks, t.features = none) ∧
    (getOrCreateTracker st cam).2.local_to_global = st.local_to_global ∧
    (getOrCreateTracker st cam).2.next_global_id = st.next_global_id ∧
    (getOrCreateTracker st cam).2.cfg = st.cfg ∧
    NoFeatT (getOrCreateTracker st cam).2.trackers := by
  unfold getOrCreateTracker
  rcases hL : lookupA cam st.trackers with _ | tr
  · dsimp only
    refine ⟨by simp, rfl, rfl, rfl, ?_⟩
    intro cam' tr' h
    rw [lookupA_append_single] at h
    rcases hL' : lookupA cam' st.trackers with _ | tr0
    · rw [hL'] at h
      dsimp only at h
      split at h
      · injection h with h
        subst h
        simp
      · cases h
    · rw [hL'] at h
      dsimp only at h
      injection h with h
      subst h
      exact hNF cam' _ hL'
  · dsimp only
    exact ⟨hNF cam tr hL, rfl, rfl, rfl, hNF⟩

/-- Main specification of one `MultiCameraTracker.update` step (simple-tracker
backend): old bindings survive, the feature-less invariant is preserved, the
binding invariants are preserved, and every returned track carries an `F`-id
still bound to its `(camera_id, local_id)` key in the post-state. -/
theorem multiUpdate_spec (norm : List ℚ → ℚ) :
    ∀ (input : List (ℕ × List DetIn)) (st st' : MCState) (out : List TrackedObject),
      multiUpdate norm st input = .ok (st', out) → NoFeatT st.trackers →
      (∀ k g, lookupA k st.local_to_global = some g →
        lookupA k st'.local_to_global = some g) ∧
      NoFeatT st'.trackers ∧
      (BindsBounded st → BindsBounded st') ∧
      (BindsBounded st → BindsInjective st → BindsInjective st') ∧
      (∀ t ∈ out, ∃ g, t.global_id = GId.F g ∧
        lookupA (t.camera_id, t.local_id) st'.local_to_global = some g) := by
  intro input
  induction input with
  | nil =>
    intro st st' out h hNF
    unfold multiUpdate at h
    simp only [Except.ok.injEq, Prod.mk.injEq] at h
    obtain ⟨rfl, rfl⟩ := h
    exact ⟨fun k g hk => hk, hNF, fun h => h, fun _ h => h, by simp⟩
  | cons p rest ih =>
    obtain ⟨cam, dets⟩ := p
    intro st st' out h hNF
    unfold multiUpdate at h
    by_cases hne : dets = []
    · rw [if_pos hne] at h
      exact ih st st' out h hNF
    · rw [if_neg hne] at h
      dsimp only at h
      split at h
      next => cases h
      next tr' tracks hsu =>
        split at h
        next => cases h
        next st4 outs' hmu =>
          simp only [Except.ok.injEq, Prod.mk.injEq] at h
          obtain ⟨rfl, rfl⟩ := h
          obtain ⟨hGt, hGl, hGn, hGc, hGNF⟩ := getOrCreateTracker_spec st cam hNF
          have hdl : ∀ d ∈ (dets.map fun d => (⟨d.bbox, d.confidence, none⟩ : Det)),
              d.features = none := by
            intro d hd
            obtain ⟨d0, -, rfl⟩ := List.mem_map.mp hd
            rfl
          obtain ⟨htr', htracks⟩ :=
            simpleUpdate_noFeat _ _ _ _ hdl hGt hsu
          -- the state with the written-back tracker
          have hNF2 : NoFeatT (setA cam tr' (getOrCreateTracker st cam).2.trackers) :=
            NoFeatT_setA _ cam tr' hGNF htr'
          obtain ⟨aExt, aTr, aCfg, aNext, aBB, aBI, aOut⟩ :=
            assignAll_spec norm cam
              { (getOrCreateTracker st cam).2 with
                trackers := setA cam tr' (getOrCreateTracker st cam).2.trackers }
              tracks htracks
          have hNF3 : NoFeatT (assignAll norm cam
              { (getOrCreateTracker st cam).2 with
                trackers := setA cam tr' (getOrCreateTracker st cam).2.trackers }
              tracks).1.trackers := by
            rw [aTr]
            exact hNF2
          obtain ⟨iExt, iNF, iBB, iBI, iOut⟩ := ih _ _ _ hmu hNF3
          refine ⟨?_, iNF, ?_, ?_, ?_⟩
          · intro k g hk
            refine iExt k g (aExt k g ?_)
            show lookupA k (getOrCreateTracker st cam).2.local_to_global = some g
            rw [hGl]
            exact hk
          · intro hB
            refine iBB (aBB (BindsBounded_of_eq ?_ ?_ hB))
            · exact hGl
            · exact hGn
          · intro hB hI
            have hB2 := BindsBounded_of_eq hGl hGn hB
            have hI2 := BindsInjective_of_eq hGl hI
            exact iBI (aBB hB2) (aBI hB2 hI2)
          · intro t ht
            rcases List.mem_append.mp ht with ht | ht
            · obtain ⟨hcam, g, hgid, hbind⟩ := aOut t ht
              exact ⟨g, hgid, by rw [hcam]; exact iExt _ g hbind⟩
            · exact iOut t ht

theorem mcRun_spec (norm : List ℚ → ℚ) :
    ∀ (inputs : List (List (ℕ × List DetIn))) (st st' : MCState)
      (outs : List (List TrackedObject)),
      mcRun norm st inputs = .ok (st', outs) →
      NoFeatT st.trackers → BindsBounded st → BindsInjective st →
      ∀ o ∈ outs, ∀ t1 ∈ o, ∀ t2 ∈ o,
        t1.camera_id = t2.camera_id → t1.local_id ≠ t2.local_id →
        t1.global_id ≠ t2.global_id := by
  intro inputs
  induction inputs with
  | nil =>
    intro st st' outs h hNF hBB hBI
    unfold mcRun at h
    simp only [Except.ok.injEq, Prod.mk.injEq] at h
    obtain ⟨-, rfl⟩ := h
    simp
  | cons inp rest ih =>
    intro st st' outs h hNF hBB hBI
    unfold mcRun at h
    split at h
    next => cases h
    next st1 out hmu =>
      split at h
      next => cases h
      next st2 outs' hrun =>
        simp only [Except.ok.injEq, Prod.mk.injEq] at h
        obtain ⟨rfl, rfl⟩ := h
        obtain ⟨mExt, mNF, mBB, mBI, mOut⟩ := multiUpdate_spec norm inp st st1 out hmu hNF
        intro o ho t1 ht1 t2 ht2 hcam hloc
        rcases List.mem_cons.mp ho with rfl | ho
        · obtain ⟨g1, hg1, hb1⟩ := mOut t1 ht1
          obtain ⟨g2, hg2, hb2⟩ := mOut t2 ht2
          intro hgid
          rw [hg1, hg2, GId.F.injEq] at hgid
          subst hgid
          have hkeys := mBI hBB hBI (t1.camera_id, t1.local_id) (t2.camera_id, t2.local_id)
            g1 hb1 hb2
          rw [Prod.mk.injEq] at hkeys
          exact hloc hkeys.2
        · exact ih st1 _ outs' hrun mNF (mBB hBB) (mBI hBB hBI) o ho t1 ht1 t2 ht2 hcam hloc

/-- **C3.** For every synchronized time-step processed by
`MultiCameraTracker.update` (any run of any length started from a fresh
tracker), no two distinct `local_id`s of the same camera are bound to the same
`global_id` within one step's returned list: in the simple-tracker path every
track is resolved with `features = None`, so `_assign_global_id` either reuses
the track's own sticky binding or mints a fresh id, and the
`(camera_id, local_id) → global_id` map stays injective. -/
theorem C3_per_camera_global_id_unique (norm : List ℚ → ℚ) (cfg : MCConfig)
    (inputs : List (List (ℕ × List DetIn))) (st' : MCState)
    (outs : List (List TrackedObject))
    (h : mcRun norm (mcInit cfg) inputs = .ok (st', outs)) :
    ∀ o ∈ outs, ∀ t1 ∈ o, ∀ t2 ∈ o,
      t1.camera_id = t2.camera_id → t1.local_id ≠ t2.local_id →
      t1.global_id ≠ t2.global_id :=
  mcRun_spec norm inputs (mcInit cfg) st' outs h
    (fun _ _ hk => Option.noConfusion hk)
    (fun _ _ hk => Option.noConfusion hk)
    (fun _ _ _ hk1 _ => Option.noConfusion hk1)

/-! ### SyncEngine (src/core/sync_engine.py)

The frame payload (`np.ndarray`) is abstracted to a numeric handle; the
`max_delay_ms` / `strategy` configuration fields and the `stats` dictionary
are never read by the verified operations and are omitted.  Wall-clock time
(`time.time()`) enters only `wait_for_synced_frames`, where it is modelled by
an explicit list of successive clock readings. -/

/-- `SyncedFrame` (payload abstracted). -/
structure SFrame where
  camera_id : ℕ
  frame : ℕ
  timestamp : ℚ
  frame_number : ℕ := 0
deriving DecidableEq, Repr

/-- `FrameBuffer`: time-ordered frames, newest last. -/
structure FrameBuffer where
  camera_id : ℕ
  max_size : ℕ := 30
  frames : List SFrame := []
deriving DecidableEq, Repr

/-- `FrameBuffer.get_closest_frame`: `min(self.frames, key=|ts - target|)`;
Python's `min` returns the first minimum, modelled by replacing the running
best only on a strict improvement.  `None` on an empty buffer. -/
def getClosestFrame (b : FrameBuffer) (target : ℚ) : Option SFrame :=
  match b.frames with
  | [] => none
  | f :: fs =>
    some (fs.foldl (fun best g =>
      if |g.timestamp - target| < |best.timestamp - target| then g else best) f)

/-- `FrameBuffer.get_latest_timestamp`. -/
def getLatestTimestamp (b : FrameBuffer) : Option ℚ :=
  b.frames.getLast?.map (·.timestamp)

/-- `SyncEngine` state.  The source precomputes
`tolerance_sec = tolerance_ms / 1000.0` in the constructor; here it is the
derived `SyncState.tolerance_sec`. -/
structure SyncState where
  tolerance_ms : ℚ := 100
  buffer_size : ℕ := 30
  buffers : List (ℕ × FrameBuffer) := []
  frame_counters : List (ℕ × ℕ) := []
deriving DecidableEq, Repr

/-- `self.tolerance_sec = tolerance_ms / 1000.0`. -/
def SyncState.tolerance_sec (st : SyncState) : ℚ := st.tolerance_ms / 1000

/-- `SyncEngine.register_camera`: create a buffer and a zero frame counter,
but only when the camera is not yet registered. -/
def registerCamera (st : SyncState) (cid : ℕ) : SyncState :=
  match lookupA cid st.buffers with
  | some _ => st
  | none =>
    { st with
      buffers := st.buffers ++ [(cid, { camera_id := cid, max_size := st.buffer_size })],
      frame_counters := st.frame_counters ++ [(cid, 0)] }

/-- `SyncEngine.get_reference_timestamp`: the minimum over the most-recent
timestamps of all buffers holding frames; `None` when nothing is buffered. -/
def getReferenceTimestamp (st : SyncState) : Option ℚ :=
  match st.buffers.filterMap fun p => getLatestTimestamp p.2 with
  | [] => none
  | t :: ts => some (ts.foldl min t)

/-- The reference timestamp actually used by `get_synced_frames`: the caller's
value if given, else `get_reference_timestamp`. -/
def resolvedRef (st : SyncState) (ref? : Option ℚ) : Option ℚ :=
  match ref? with
  | some r => some r
  | none => getReferenceTimestamp st

/-- `SyncEngine.get_synced_frames`: per requested camera, the buffered frame
closest to the reference, kept only when within `tolerance_sec`; unregistered
cameras, empty buffers and out-of-tolerance frames are skipped silently. -/
def getSyncedFrames (st : SyncState) (camIds? : Option (List ℕ)) (ref? : Option ℚ) :
    List (ℕ × SFrame) :=
  let camIds := camIds?.getD (st.buffers.map (·.1))
  if camIds = [] then []
  else
    match resolvedRef st ref? with
    | none => []
    | some ref =>
      camIds.filterMap fun cid =>
        match lookupA cid st.buffers with
        | none => none
        | some buf =>
          match getClosestFrame buf ref with
          | none => none
          | some fr =>
            if |fr.timestamp - ref| ≤ st.tolerance_sec then some (cid, fr) else none

/-- The polling loop of `SyncEngine.wait_for_synced_frames` over an explicit
list of successive `time.time()` readings.  `bodyRan` records whether the
loop body has executed at least once, i.e. whether the local variable
`synced_frames` has been assigned; on timeout with `bodyRan = false` the
source's `logger.warning(f"... {len(synced_frames)} ...")` reads an unassigned
local and Python raises `UnboundLocalError`, modelled by `Except.error ()`.
`Except.error ()` is also returned if the clock trace is exhausted (a trace
long enough for its last reading to pass the deadline always decides). -/
def waitLoop (st : SyncState) (camIds : List ℕ) (timeout : ℚ) (minCams : ℕ)
    (start : ℚ) : List ℚ → Bool → Except Unit (List (ℕ × SFrame))
  | [], _ => .error ()
  | t :: ts, bodyRan =>
    if t - start < timeout then
      let synced := getSyncedFrames st (some camIds) none
      if minCams ≤ synced.length then .ok synced
      else waitLoop st camIds timeout minCams start ts true
    else
      if bodyRan then .ok (getSyncedFrames st (some camIds) none)
      else .error ()

/-- `SyncEngine.wait_for_synced_frames`: resolve the camera list and
`min_cameras` defaults, take `start_time`, then poll. -/
def waitForSyncedFrames (st : SyncState) (camIds? : Option (List ℕ))
    (timeout : ℚ) (minCams? : Option ℕ) (clock : List ℚ) :
    Except Unit (List (ℕ × SFrame)) :=
  let camIds := camIds?.getD (st.buffers.map (·.1))
  let minCams := minCams?.getD camIds.length
  match clock with
  | [] => .error ()
  | start :: rest => waitLoop st camIds timeout minCams start rest false

/-- Membership in a synchronized set: the camera is registered, the frame is
the closest buffered frame to the resolved reference, and it is within
tolerance. -/
theorem mem_getSyncedFrames {st : SyncState} {camIds? : Option (List ℕ)}
    {ref? : Option ℚ} {c : ℕ} {f : SFrame}
    (h : (c, f) ∈ getSyncedFrames st camIds? ref?) :
    ∃ r buf, resolvedRef st ref? = some r ∧ lookupA c st.buffers = some buf ∧
      getClosestFrame buf r = some f ∧ |f.timestamp - r| ≤ st.tolerance_sec := by
  unfold getSyncedFrames at h
  rcases href : resolvedRef st ref? with _ | r
  · rw [href] at h
    dsimp only at h
    split at h <;> exact absurd h (List.not_mem_nil _)
  · rw [href] at h
    dsimp only at h
    split at h
    · exact absurd h (List.not_mem_nil _)
    · obtain ⟨cid, hcid, hg⟩ := List.mem_filterMap.mp h
      rcases hlk : lookupA cid st.buffers with _ | buf
      · rw [hlk] at hg
        cases hg
      · rw [hlk] at hg
        dsimp only at hg
        rcases hcl : getClosestFrame buf r with _ | fr
        · rw [hcl] at hg
          cases hg
        · rw [hcl] at hg
          dsimp only at hg
          split at hg
          next htol =>
            injection hg with hg
            rw [Prod.mk.injEq] at hg
            obtain ⟨h1, h2⟩ := hg
            refine ⟨r, buf, rfl, ?_, ?_, ?_⟩
            · rw [← h1]
              exact hlk
            · rw [← h2]
              exact hcl
            · rw [← h2]
              exact htol
          next => cases hg

/-- **C6.** Every camera included in a map returned by
`SyncEngine.get_synced_frames` contributes a frame within
`tolerance_ms / 1000` seconds of the reference timestamp; a camera whose
closest buffered frame exceeds the tolerance, or whose buffer is empty, is
omitted from the result (the function is total — no error path exists). -/
theorem C6_synced_frames_tolerance :
    (∀ (st : SyncState) (camIds? : Option (List ℕ)) (ref? : Option ℚ) (c : ℕ)
      (f : SFrame), (c, f) ∈ getSyncedFrames st camIds? ref? →
      ∃ r, resolvedRef st ref? = some r ∧ |f.timestamp - r| ≤ st.tolerance_ms / 1000) ∧
    (∀ (st : SyncState) (camIds? : Option (List ℕ)) (ref? : Option ℚ) (c : ℕ)
      (buf : FrameBuffer), lookupA c st.buffers = some buf → buf.frames = [] →
      ∀ f, (c, f) ∉ getSyncedFrames st camIds? ref?) ∧
    (∀ (st : SyncState) (camIds? : Option (List ℕ)) (ref? : Option ℚ) (c : ℕ)
      (buf : FrameBuffer) (r : ℚ) (fr : SFrame), lookupA c st.buffers = some buf →
      resolvedRef st ref? = some r → getClosestFrame buf r = some fr →
      st.tolerance_ms / 1000 < |fr.timestamp - r| →
      ∀ f, (c, f) ∉ getSyncedFrames st camIds? ref?) := by
  refine ⟨?_, ?_, ?_⟩
  · intro st camIds? ref? c f h
    obtain ⟨r, buf, href, -, -, htol⟩ := mem_getSyncedFrames h
    exact ⟨r, href, htol⟩
  · intro st camIds? ref? c buf hlk hempty f h
    obtain ⟨r, buf', -, hlk', hcl, -⟩ := mem_getSyncedFrames h
    rw [hlk] at hlk'
    injection hlk' with hlk'
    subst hlk'
    unfold getClosestFrame at hcl
    rw [hempty] at hcl
    cases hcl
  · intro st camIds? ref? c buf r fr hlk href hcl hfar f h
    obtain ⟨r', buf', href', hlk', hcl', htol⟩ := mem_getSyncedFrames h
    rw [href] at href'
    injection href' with href'
    subst href'
    rw [hlk] at hlk'
    injection hlk' with hlk'
    subst hlk'
    rw [hcl] at hcl'
    injection hcl' with hcl'
    subst hcl'
    exact absurd htol (not_le.mpr hfar)

/-- **C7.** Contrary to the spec's "never raises on timeout" contract,
`wait_for_synced_frames` raises when the timeout elapses before the first
poll (e.g. `timeout = 0`): the `while` body never runs, so the local
`synced_frames` is never assigned, and the final
`logger.warning(f"... {len(synced_frames)} ...")` raises `UnboundLocalError`
instead of returning the available frames. -/
theorem C7_wait_timeout_raises (st : SyncState) (camIds? : Option (List ℕ))
    (minCams? : Option ℕ) (timeout : ℚ) (t0 t1 : ℚ) (ts : List ℚ)
    (htimeout : timeout ≤ 0) (hclock : t0 ≤ t1) :
    waitForSyncedFrames st camIds? timeout minCams? (t0 :: t1 :: ts) = .error () := by
  unfold waitForSyncedFrames
  dsimp only
  unfold waitLoop
  rw [if_neg (by linarith)]
  rfl

theorem C7_wait_timeout_raises_witness :
    waitForSyncedFrames {} none 0 none [0, 0] = .error () :=
  C7_wait_timeout_raises {} none none 0 0 0 [] (le_refl 0) (le_refl 0)

/-- **C8.** `register_camera` is idempotent: a second registration of the same
`camera_id` is a complete no-op (no duplicate buffer, buffer contents and
frame counter untouched); more precisely, registering an already-registered
camera returns the state unchanged. -/
theorem C8_register_camera_idempotent :
    (∀ (st : SyncState) (c : ℕ),
      registerCamera (registerCamera st c) c = registerCamera st c) ∧
    (∀ (st : SyncState) (c : ℕ) (buf : FrameBuffer),
      lookupA c st.buffers = some buf → registerCamera st c = st) := by
  have hnoop : ∀ (st : SyncState) (c : ℕ) (buf : FrameBuffer),
      lookupA c st.buffers = some buf → registerCamera st c = st := by
    intro st c buf h
    unfold registerCamera
    rw [h]
  refine ⟨?_, hnoop⟩
  intro st c
  rcases hlk : lookupA c st.buffers with _ | buf
  · have hreg : lookupA c (registerCamera st c).buffers =
        some { camera_id := c, max_size := st.buffer_size } := by
      unfold registerCamera
      rw [hlk]
      dsimp only
      rw [lookupA_append_single, hlk]
      simp
    exact hnoop _ c _ hreg
  · rw [hnoop st c buf hlk, hnoop st c buf hlk]

theorem C8_register_camera_idempotent_witness :
    registerCamera (registerCamera {} 0) 0 = registerCamera {} 0 ∧
    registerCamera
      { buffers := [(0, { camera_id := 0 })], frame_counters := [(0, 0)] } 0 =
      { buffers := [(0, { camera_id := 0 })], frame_counters := [(0, 0)] } :=
  ⟨C8_register_camera_idempotent.1 {} 0,
    C8_register_camera_idempotent.2
      { buffers := [(0, { camera_id := 0 })], frame_counters := [(0, 0)] } 0
      { camera_id := 0 } rfl⟩

/-! ### FusionEngine (src/core/fusion_engine.py)

`global_id` strings `"F<n>"` are again represented by their numeric part.
`position_3d` and `kalman_filter` are omitted: absent calibration,
`calculate_3d_position` always returns `None`, and no verified property reads
them.  `active_objects` and the `stats` dictionary are never read by
`merge_detections` and are omitted. -/

/-- `fusion_engine.Detection`. -/
structure FDet where
  camera_id : ℕ
  bbox : BBox
  confidence : ℚ
  features : Option (List ℚ) := none
  timestamp : ℚ := 0
deriving DecidableEq, Repr

/-- `fusion_engine.FusedObject` (see the section comment for omitted fields). -/
structure FusedObject where
  global_id : ℕ
  detections : List FDet := []
  confidence : ℚ := 0
  timestamp : ℚ := 0
deriving DecidableEq, Repr

/-- `FusedObject.update_confidence`:
`avg_conf = np.mean(confidences)`, `camera_bonus = min(num_cameras/4, 1)`,
`confidence = min(avg_conf * (1 + camera_bonus * 0.2), 1.0)`;
`0.0` for an empty member list. -/
def updateConfidence (o : FusedObject) : FusedObject :=
  if o.detections = [] then { o with confidence := 0 }
  else
    let avg_conf := (o.detections.map (·.confidence)).sum / o.detections.length
    let camera_bonus := min ((o.detections.length : ℚ) / 4) 1
    { o with confidence := min (avg_conf * (1 + camera_bonus * (2/10))) 1 }

/-- `FusionEngine.calculate_feature_distance`: cosine distance with the same
`+1e-8` norm regularization; `1.0` (neutral) when either side lacks
features. -/
def calculateFeatureDistance (norm : List ℚ → ℚ) :
    Option (List ℚ) → Option (List ℚ) → ℚ
  | some f1, some f2 =>
    1 - dotQ (f1.map (· / (norm f1 + normEps))) (f2.map (· / (norm f2 + normEps)))
  | _, _ => 1

/-- `FusionEngine.calculate_matching_cost`: `inf` for two detections of the
same camera, otherwise `position_weight * 1.0 + feature_weight * dist`
(the spatial cost is the hard-coded neutral `1.0`). -/
def calculateMatchingCost (norm : List ℚ → ℚ) (feature_weight : ℚ)
    (d1 d2 : FDet) : WithTop ℚ :=
  if d1.camera_id = d2.camera_id then ⊤
  else ((1 - feature_weight) * 1 + feature_weight *
    calculateFeatureDistance norm d1.features d2.features : ℚ)

/-- `FusionEngine` state (fields read by `merge_detections`). -/
structure FusionState where
  spatial_threshold : ℚ := 1/2
  feature_weight : ℚ := 7/10
  next_global_id : ℕ := 0
deriving DecidableEq, Repr

/-- The inner loop of `merge_detections`' grouping: scan all detections `d2`
for unused, other-camera detections whose matching cost against the group
seed `d1` is below `0.5`, appending them to the group. -/
def groupScan (norm : List ℚ → ℚ) (fw : ℚ) (d1 : FDet) :
    List (ℕ × FDet) → List FDet → List ℕ → List FDet × List ℕ
  | [], group, used => (group, used)
  | (j, d2) :: rest, group, used =>
    if j ∈ used then groupScan norm fw d1 rest group used
    else if d2.camera_id ∈ group.map (·.camera_id) then
      groupScan norm fw d1 rest group used
    else if calculateMatchingCost norm fw d1 d2 < (1/2 : ℚ) then
      groupScan norm fw d1 rest (group ++ [d2]) (j :: used)
    else groupScan norm fw d1 rest group used

/-- The outer loop of `merge_detections`: each unused detection seeds a group,
which becomes one `FusedObject` with a freshly minted id (`next_global_id`
incremented once per object); the object's timestamp is the group mean. -/
def groupLoop (norm : List ℚ → ℚ) (fw : ℚ) (all : List FDet) :
    List (ℕ × FDet) → List ℕ → ℕ → List FusedObject → List FusedObject × ℕ
  | [], _, next, acc => (acc, next)
  | (i, d1) :: rest, used, next, acc =>
    if i ∈ used then groupLoop norm fw all rest used next acc
    else
      let scan := groupScan norm fw d1 all.enum [d1] (i :: used)
      let obj := updateConfidence
        { global_id := next, detections := scan.1,
          timestamp := (scan.1.map (·.timestamp)).sum / scan.1.length }
      groupLoop norm fw all rest scan.2 (next + 1) (acc ++ [obj])

/-- `FusionEngine.merge_detections`: flatten the per-camera detections, handle
the empty and singleton cases directly, otherwise run the greedy grouping;
every emitted `FusedObject` takes `f"F{next_global_id}"` with the counter
incremented once per object. -/
def mergeDetections (norm : List ℚ → ℚ) (st : FusionState)
    (input : List (ℕ × List FDet)) : List FusedObject × FusionState :=
  let all := (input.map (·.2)).flatten
  if all = [] then ([], st)
  else if all.length = 1 then
    let obj := updateConfidence
      { global_id := st.next_global_id, detections := all,
        timestamp := ((all.head?.map (·.timestamp)).getD 0) }
    ([obj], { st with next_global_id := st.next_global_id + 1 })
  else
    let r := groupLoop norm st.feature_weight all all.enum [] st.next_global_id []
    (r.1, { st with next_global_id := r.2 })

theorem updateConfidence_global_id (o : FusedObject) :
    (updateConfidence o).global_id = o.global_id := by
  unfold updateConfidence
  split <;> rfl

/-- Freshness bookkeeping of the grouping loop: the counter only grows, every
accumulated object's id lies below the final counter and at or above the
starting counter unless it was already accumulated, and the counter advances
exactly once per object created. -/
theorem groupLoop_spec (norm : List ℚ → ℚ) (fw : ℚ) (all : List FDet) :
    ∀ (idx : List (ℕ × FDet)) (used : List ℕ) (next : ℕ) (acc : List FusedObject),
      (∀ o ∈ acc, o.global_id < next) →
      next ≤ (groupLoop norm fw all idx used next acc).2 ∧
      (∀ o ∈ (groupLoop norm fw all idx used next acc).1,
        o.global_id < (groupLoop norm fw all idx used next acc).2) ∧
      (∀ o ∈ (groupLoop norm fw all idx used next acc).1,
        o ∈ acc ∨ next ≤ o.global_id) ∧
      (groupLoop norm fw all idx used next acc).1.length + next =
        acc.length + (groupLoop norm fw all idx used next acc).2 := by
  intro idx
  induction idx with
  | nil =>
    intro used next acc hacc
    exact ⟨le_refl _, hacc, fun o ho => Or.inl ho, by simp [groupLoop]⟩
  | cons p rest ih =>
    obtain ⟨i, d1⟩ := p
    intro used next acc hacc
    by_cases hi : i ∈ used
    · simp only [groupLoop, if_pos hi]
      exact ih used next acc hacc
    · simp only [groupLoop, if_neg hi]
      have hacc' : ∀ o ∈ acc ++ [updateConfidence
          { global_id := next,
            detections := (groupScan norm fw d1 all.enum [d1] (i :: used)).1,
            timestamp := ((groupScan norm fw d1 all.enum [d1] (i :: used)).1.map
              (·.timestamp)).sum /
              (groupScan norm fw d1 all.enum [d1] (i :: used)).1.length }],
          o.global_id < next + 1 := by
        intro o ho
        rcases List.mem_append.mp ho with ho | ho
        · exact lt_trans (hacc o ho) (Nat.lt_succ_self _)
        · rcases List.mem_singleton.mp ho with rfl
          rw [updateConfidence_global_id]
          exact Nat.lt_succ_self _
      obtain ⟨ihLe, ihUb, ihLb, ihLen⟩ := ih _ (next + 1) _ hacc'
      refine ⟨le_trans (Nat.le_succ _) ihLe, ihUb, ?_, ?_⟩
      · intro o ho
        rcases ihLb o ho with ho' | ho'
        · rcases List.mem_append.mp ho' with ho' | ho'
          · exact Or.inl ho'
          · rcases List.mem_singleton.mp ho' with rfl
            rw [updateConfidence_global_id]
            exact Or.inr (le_refl _)
        · exact Or.inr (le_trans (Nat.le_succ _) ho')
      · simp only [List.length_append, List.length_singleton] at ihLen
        omega

/-- Id freshness of one `merge_detections` call: ids of the returned objects
lie in `[next_global_id, next_global_id')`, and the counter advances by
exactly the number of objects returned. -/
theorem mergeDetections_ids (norm : List ℚ → ℚ) (st : FusionState)
    (input : List (ℕ × List FDet)) :
    st.next_global_id ≤ (mergeDetections norm st input).2.next_global_id ∧
    (∀ o ∈ (mergeDetections norm st input).1,
      st.next_global_id ≤ o.global_id ∧
      o.global_id < (mergeDetections norm st input).2.next_global_id) ∧
    (mergeDetections norm st input).2.next_global_id =
      st.next_global_id + (mergeDetections norm st input).1.length := by
  unfold mergeDetections
  dsimp only
  split
  · exact ⟨le_refl _, by simp, by simp⟩
  · split
    · refine ⟨Nat.le_succ _, ?_, by simp⟩
      intro o ho
      rcases List.mem_singleton.mp ho with rfl
      rw [updateConfidence_global_id]
      exact ⟨le_refl _, Nat.lt_succ_self _⟩
    · obtain ⟨hLe, hUb, hLb, hLen⟩ := groupLoop_spec norm st.feature_weight
        ((input.map (·.2)).flatten) ((input.map (·.2)).flatten).enum []
        st.next_global_id [] (by simp)
      refine ⟨hLe, ?_, by
        dsimp only
        simp only [List.length_nil, Nat.zero_add] at hLen
        omega⟩
      intro o ho
      refine ⟨?_, hUb o ho⟩
      rcases hLb o ho with ho' | ho'
      · exact absurd ho' (List.not_mem_nil _)
      · exact ho'

/-! ### Claim theorems for the per-camera tracker -/

/-- **C9.** With at least one live track and an empty detections list,
`SimpleTracker.update` raises (`iou_matrix.max()` on the zero-size matrix
`np.zeros((n, 0))` raises `ValueError`); with a non-empty detections list or
no tracks the call returns normally (for any `iou_threshold > -1`, which
includes the default `0.3`; at thresholds `≤ -1` the greedy loop would not
terminate at all). -/
theorem C9_empty_detections_raise :
    (∀ st : SimpleState, st.tracks ≠ [] → simpleUpdate st [] = .error ()) ∧
    (∀ (st : SimpleState) (dets : List Det), -1 < st.iou_threshold →
      (dets ≠ [] ∨ st.tracks = []) → ∃ r, simpleUpdate st dets = .ok r) :=
  ⟨simpleUpdate_empty_error, simpleUpdate_isOk⟩

theorem C9_empty_detections_raise_witness :
    simpleUpdate stC1a [] = .error () ∧ ∃ r, simpleUpdate {} [dA] = .ok r :=
  ⟨C9_empty_detections_raise.1 stC1a (by simp [stC1a]),
    C9_empty_detections_raise.2 {} [dA] (by norm_num) (Or.inl (by simp))⟩

/-- A detection whose bounding box has zero area. -/
def dDeg : Det := ⟨⟨5, 5, 5, 5⟩, 9/10, none⟩

/-- **C5, counterexample.** The claim says a zero-area detection "is rejected
at the Associator's update input with a typed validation error rather than
being propagated".  No validation exists: `update` accepts the degenerate
detection without any error and turns it into a new track. -/
theorem C5_counterexample :
    simpleUpdate {} [dDeg] =
      .ok ({ tracks := [⟨.T 0, 0, 0, ⟨5, 5, 5, 5⟩, 9/10, none, [(5, 5)], 0, 0,
        .tentative⟩], next_id := 1 }, []) := by
  norm_num [simpleUpdate, createTracks, newTrack, pushTraj, BBox.center, dDeg,
    List.enum, List.enumFrom]

/-- **C5** (amended).  Degenerate zero-area boxes are NOT rejected at the
`update` input (no validation exists; the call succeeds on any non-empty
detection list); they propagate into the IoU computation, where the division
is guarded: whenever the union area is not positive, `calculate_iou` returns
`0.0`. -/
theorem C5_degenerate_iou_guarded :
    (∀ b1 b2 : BBox, unionArea b1 b2 ≤ 0 → calculateIou b1 b2 = 0) ∧
    (∀ (st : SimpleState) (dets : List Det), -1 < st.iou_threshold → dets ≠ [] →
      ∃ r, simpleUpdate st dets = .ok r) := by
  constructor
  · intro b1 b2 h
    unfold calculateIou
    rw [if_neg (not_lt.mpr h)]
  · intro st dets hθ hne
    exact simpleUpdate_isOk st dets hθ (Or.inl hne)

theorem C5_degenerate_iou_guarded_witness :
    calculateIou ⟨5, 5, 5, 5⟩ ⟨5, 5, 5, 5⟩ = 0 ∧ ∃ r, simpleUpdate {} [dDeg] = .ok r :=
  ⟨C5_degenerate_iou_guarded.1 ⟨5, 5, 5, 5⟩ ⟨5, 5, 5, 5⟩
      (by norm_num [unionArea, boxArea, interArea]),
    C5_degenerate_iou_guarded.2 {} [dDeg] (by norm_num) (by simp)⟩

/-- **C1, counterexample.** Four-step run from a fresh default tracker: the
step-4 returned "confirmed" list contains the track with `local_id 0`, which
received only its creation detection and zero matching detections since (it
was missed three times: `time_since_update = 3`) and is still Tentative — the
output filter is `age >= min_hits`, and `age` also counts missed frames. -/
theorem C1_counterexample :
    simpleUpdate {} [dA] = .ok (stC1a, []) ∧
    simpleUpdate stC1a [dB] = .ok (stC1b, []) ∧
    simpleUpdate stC1b [dB] = .ok (stC1c, []) ∧
    simpleUpdate stC1c [dB] = .ok (stC1d, [tA 3]) ∧
    (tA 3).state = .tentative ∧ (tA 3).time_since_update = 3 ∧
    stC1c.min_hits = 3 :=
  ⟨c1_step1, c1_step2, c1_step3, c1_step4, rfl, rfl, rfl⟩

/-- **C1** (amended).  A fresh Tentative track promotes to Confirmed exactly
when it has received 3 consecutive matching detections (the hard-coded
promotion threshold of `TrackedObject.update`), and the promotion is
irreversible, mark-missed never changes the state; but the list returned by
`update` is exactly the survivors filtered by `age ≥ min_hits`, where `age`
also counts missed frames, so an unpromoted track can appear in it (see the
counterexample). -/
theorem C1_promotion_exactly_once :
    (∀ (gid : GId) (lid cam : ℕ) (bbox : BBox) (conf : ℚ)
      (feats : Option (List ℚ)) (ds : List Det),
      (applyDets (newTrack gid lid cam bbox conf feats) ds).state = .confirmed ↔
        3 ≤ ds.length) ∧
    (∀ (t : TrackedObject) (d : Det), t.state = .confirmed →
      (applyDet t d).state = .confirmed) ∧
    (∀ t : TrackedObject, (markMissed t).state = t.state) ∧
    (∀ (st : SimpleState) (dets : List Det) (st' : SimpleState)
      (out : List TrackedObject), simpleUpdate st dets = .ok (st', out) →
      out = st'.tracks.filter fun t => st'.min_hits ≤ t.age) := by
  refine ⟨?_, applyDet_state_confirmed, markMissed_state, ?_⟩
  · intro gid lid cam bbox conf feats ds
    have hage : (newTrack gid lid cam bbox conf feats).age = 0 := rfl
    rw [applyDets_state ds _ rfl, hage]
    by_cases hds : ds = []
    · subst hds
      simp
    · rw [if_neg hds]
      by_cases h3 : 3 ≤ 0 + ds.length
      · rw [if_pos h3]
        simp only [true_iff]
        omega
      · rw [if_neg h3]
        constructor
        · intro h
          cases h
        · intro h
          exact absurd (by omega : 3 ≤ 0 + ds.length) h3
  · intro st dets st' out h
    exact (simpleUpdate_output st dets st' out h).1

theorem C1_promotion_exactly_once_witness :
    ((applyDets (newTrack (.T 0) 0 0 ⟨0, 0, 10, 10⟩ (9/10) none) [dA, dA, dA]).state
      = .confirmed ↔ 3 ≤ ([dA, dA, dA] : List Det).length) ∧
    (applyDet ⟨.T 0, 0, 0, ⟨0, 0, 10, 10⟩, 1, none, [], 3, 0, .confirmed⟩ dA).state
      = .confirmed ∧
    [tA 3] = stC1d.tracks.filter (fun t => stC1d.min_hits ≤ t.age) :=
  ⟨C1_promotion_exactly_once.1 (.T 0) 0 0 ⟨0, 0, 10, 10⟩ (9/10) none [dA, dA, dA],
    C1_promotion_exactly_once.2.1 _ dA rfl,
    C1_promotion_exactly_once.2.2.2 stC1c [dB] stC1d [tA 3] c1_step4⟩

/-! ### Claim theorems for cross-camera re-identification and fusion -/

/-! Concrete five-step run for the C3 witness, through
`MultiCameraTracker.update` on camera 0 with the simple tracker: step 1 sees
detection `dA`, steps 2-5 see detection `dB`.  At step 5 the returned list
holds two tracks of the same camera — local id 0 (aged past `min_hits` by
misses, still Tentative) and local id 1 (promoted) — bound to the distinct
global ids `F0` and `F1`. -/

/-- The simple-tracker path computes no embeddings, so the norm is never
consulted in this run; any fixed function works. -/
def nC3 : List ℚ → ℚ := fun _ => 0

def dIA : DetIn := ⟨⟨0, 0, 10, 10⟩, 9/10⟩

def dIB : DetIn := ⟨⟨100, 100, 110, 110⟩, 9/10⟩

/-- The second track of the scenario once promoted (after its third matched
update, at step 5). -/
def tBc : TrackedObject :=
  ⟨.T 1, 1, 0, ⟨100, 100, 110, 110⟩, 9/10, none,
    [(105, 105), (105, 105), (105, 105), (105, 105)], 3, 0, .confirmed⟩

def stC1e : SimpleState := { tracks := [tA 4, tBc], next_id := 2 }

theorem c1_step5 : simpleUpdate stC1d [dB] = .ok (stC1e, [tA 4, tBc]) := by
  norm_num [simpleUpdate, iouMatrix, greedyLoop, matMax, argmaxPos, entryList, modifyIdx,
    createTracks, applyDet, markMissed, newTrack, pushTraj, calculateIou, unionArea,
    interArea, boxArea, min_def, max_def, BBox.center, dB, stC1d, stC1e, tA, tB, tBc,
    List.enum, List.enumFrom, List.range_succ, List.cons_ne_nil, List.filter_cons]

def N1 : MCState := { trackers := [(0, stC1a)] }

def N2 : MCState := { trackers := [(0, stC1b)] }

def N3 : MCState := { trackers := [(0, stC1c)] }

def N4 : MCState :=
  { trackers := [(0, stC1d)], local_to_global := [((0, 0), 0)], next_global_id := 1 }

def N5 : MCState :=
  { trackers := [(0, stC1e)], local_to_global := [((0, 0), 0), ((0, 1), 1)],
    next_global_id := 2 }

def o4 : List TrackedObject :=
  [⟨.F 0, 0, 0, ⟨0, 0, 10, 10⟩, 9/10, none, [(5, 5)], 3, 3, .tentative⟩]

def o5A : TrackedObject :=
  ⟨.F 0, 0, 0, ⟨0, 0, 10, 10⟩, 9/10, none, [(5, 5)], 4, 4, .tentative⟩

def o5B : TrackedObject :=
  ⟨.F 1, 1, 0, ⟨100, 100, 110, 110⟩, 9/10, none,
    [(105, 105), (105, 105), (105, 105), (105, 105)], 3, 0, .confirmed⟩

def o5 : List TrackedObject := [o5A, o5B]

theorem c3w1 : multiUpdate nC3 (mcInit {}) [(0, [dIA])] = .ok (N1, []) := by
  have hdl : ([dIA].map fun d => (⟨d.bbox, d.confidence, none⟩ : Det)) = [dA] := rfl
  norm_num [multiUpdate, getOrCreateTracker, lookupA, setA, assignAll, mcInit, hdl,
    c1_step1, N1, List.cons_ne_nil]

theorem c3w2 : multiUpdate nC3 N1 [(0, [dIB])] = .ok (N2, []) := by
  have hdl : ([dIB].map fun d => (⟨d.bbox, d.confidence, none⟩ : Det)) = [dB] := rfl
  norm_num [multiUpdate, getOrCreateTracker, lookupA, setA, assignAll, hdl,
    c1_step2, N1, N2, List.cons_ne_nil]

theorem c3w3 : multiUpdate nC3 N2 [(0, [dIB])] = .ok (N3, []) := by
  have hdl : ([dIB].map fun d => (⟨d.bbox, d.confidence, none⟩ : Det)) = [dB] := rfl
  norm_num [multiUpdate, getOrCreateTracker, lookupA, setA, assignAll, hdl,
    c1_step3, N2, N3, List.cons_ne_nil]

theorem c3w4 : multiUpdate nC3 N3 [(0, [dIB])] = .ok (N4, o4) := by
  have hdl : ([dIB].map fun d => (⟨d.bbox, d.confidence, none⟩ : Det)) = [dB] := rfl
  norm_num [multiUpdate, getOrCreateTracker, lookupA, setA, assignAll, assignGlobalId,
    retag, tA, hdl, c1_step4, N3, N4, o4, List.cons_ne_nil]

theorem c3w5 : multiUpdate nC3 N4 [(0, [dIB])] = .ok (N5, o5) := by
  have hdl : ([dIB].map fun d => (⟨d.bbox, d.confidence, none⟩ : Det)) = [dB] := rfl
  norm_num [multiUpdate, getOrCreateTracker, lookupA, setA, assignAll, assignGlobalId,
    retag, tA, tBc, hdl, c1_step5, N4, N5, o5, o5A, o5B, Prod.mk.injEq, -Prod.mk_zero_zero,
    List.cons_ne_nil]

theorem c3_run :
    mcRun nC3 (mcInit {})
      [[(0, [dIA])], [(0, [dIB])], [(0, [dIB])], [(0, [dIB])], [(0, [dIB])]] =
      .ok (N5, [[], [], [], o4, o5]) := by
  simp only [mcRun, c3w1, c3w2, c3w3, c3w4, c3w5]

theorem C3_per_camera_global_id_unique_witness : o5A.global_id ≠ o5B.global_id :=
  C3_per_camera_global_id_unique nC3 {}
    [[(0, [dIA])], [(0, [dIB])], [(0, [dIB])], [(0, [dIB])], [(0, [dIB])]] N5
    [[], [], [], o4, o5] c3_run o5
    (List.mem_cons_of_mem _ (List.mem_cons_of_mem _ (List.mem_cons_of_mem _
      (List.mem_cons_of_mem _ (List.mem_cons_self _ _)))))
    o5A (List.mem_cons_self _ _)
    o5B (List.mem_cons_of_mem _ (List.mem_cons_self _ _))
    rfl (by decide)

/-- Resolving two embedded tracks in sequence from an empty registry
(`_assign_global_id`): the first track mints `n0` and seeds its prototype;
the second matches the prototype (same id) exactly when the code-computed
similarity strictly clears the threshold, and mints `n0 + 1` when it is
below. -/
theorem assign_two_from_empty (norm : List ℚ → ℚ) (θ : ℚ) (n0 : ℕ)
    (c1 l1 c2 l2 : ℕ) (f1 f2 : List ℚ) (hθ : 0 ≤ θ) (hc : c1 ≠ c2) :
    (assignGlobalId norm { cfg := { reid_threshold := θ }, next_global_id := n0 }
      l1 c1 (some f1)).1 = n0 ∧
    (assignGlobalId norm { cfg := { reid_threshold := θ }, next_global_id := n0 }
      l1 c1 (some f1)).2 =
      { cfg := { reid_threshold := θ }, local_to_global := [((c1, l1), n0)],
        global_features := [(n0, f1)], next_global_id := n0 + 1 } ∧
    (θ < calcFeatureSimilarity norm f2 f1 →
      (assignGlobalId norm
        { cfg := { reid_threshold := θ }, local_to_global := [((c1, l1), n0)],
          global_features := [(n0, f1)], next_global_id := n0 + 1 }
        l2 c2 (some f2)).1 = n0) ∧
    (calcFeatureSimilarity norm f2 f1 < θ →
      (assignGlobalId norm
        { cfg := { reid_threshold := θ }, local_to_global := [((c1, l1), n0)],
          global_features := [(n0, f1)], next_global_id := n0 + 1 }
        l2 c2 (some f2)).1 = n0 + 1) := by
  have hkey : ¬ ((c1, l1) : ℕ × ℕ) = (c2, l2) := by
    intro h
    rw [Prod.mk.injEq] at h
    exact hc h.1
  refine ⟨?_, ?_, ?_, ?_⟩
  · simp [assignGlobalId, lookupA]
  · simp [assignGlobalId, lookupA, setA]
  · intro hsim
    have h0 : (0 : ℚ) < calcFeatureSimilarity norm f2 f1 := lt_of_le_of_lt hθ hsim
    simp [assignGlobalId, lookupA, setA, bestMatch, hkey, h0, hsim]
  · intro hsim
    have hno : ¬ θ < calcFeatureSimilarity norm f2 f1 := not_lt.mpr (le_of_lt hsim)
    simp [assignGlobalId, lookupA, setA, bestMatch, hkey, hno]

/-- The two embeddings of the C2 counterexample: tiny-magnitude vectors with
exact Euclidean norms `5e-8` and exact cosine similarity `24/25 = 0.96`. -/
def f1C2 : List ℚ := [4 / 10 ^ 8, 3 / 10 ^ 8]

def f2C2 : List ℚ := [3 / 10 ^ 8, 4 / 10 ^ 8]

/-- The Euclidean norm on the two C2 counterexample vectors (certified inside
`C2_counterexample` by `norm * norm = sumSq`). -/
def normC2 : List ℚ → ℚ :=
  fun v => if v = f1C2 then 5 / 10 ^ 8 else if v = f2C2 then 5 / 10 ^ 8 else 0

/-- **C2, counterexample.** Two tracks from different cameras with exact
cosine similarity `24/25 = 0.96 > 0.7`, resolved in sequence from the empty
registry, are bound to two DISTINCT global ids: the code divides by
`norm + 1e-8`, and for these tiny-magnitude embeddings (norm `5e-8`) the
computed similarity drops to `2/3 < 0.7`, so no prototype clears the
threshold.  The first two conjuncts certify that `normC2` is the true
Euclidean norm of each vector. -/
theorem C2_counterexample :
    (normC2 f1C2 * normC2 f1C2 = sumSq f1C2 ∧ 0 ≤ normC2 f1C2) ∧
    (normC2 f2C2 * normC2 f2C2 = sumSq f2C2 ∧ 0 ≤ normC2 f2C2) ∧
    7/10 < cosineSimWithNorms f1C2 f2C2 (normC2 f1C2) (normC2 f2C2) ∧
    (assignGlobalId normC2
        (assignGlobalId normC2 (mcInit {}) 0 0 (some f1C2)).2 0 1 (some f2C2)).1 ≠
      (assignGlobalId normC2 (mcInit {}) 0 0 (some f1C2)).1 := by
  obtain ⟨hfst, hsnd, -, hsep⟩ :=
    assign_two_from_empty normC2 (7/10) 0 0 0 1 0 f1C2 f2C2 (by norm_num)
      (by norm_num)
  have hstate : (mcInit {} : MCState) =
      { cfg := { reid_threshold := 7/10 }, next_global_id := 0 } := rfl
  have hsim : calcFeatureSimilarity normC2 f2C2 f1C2 = 2/3 := by
    norm_num [calcFeatureSimilarity, normC2, f1C2, f2C2, normEps, dotQ]
  refine ⟨⟨?_, ?_⟩, ⟨?_, ?_⟩, ?_, ?_⟩
  · norm_num [normC2, f1C2, f2C2, sumSq]
  · norm_num [normC2, f1C2, f2C2]
  · norm_num [normC2, f1C2, f2C2, sumSq]
  · norm_num [normC2, f1C2, f2C2]
  · norm_num [normC2, f1C2, f2C2, cosineSimWithNorms, dotQ]
  · rw [hstate, hsnd, hfst, hsep (by rw [hsim]; norm_num)]
    decide

/-- **C2** (amended).  From an empty registry, two embedded tracks from
different cameras resolved in sequence share a global id exactly when the
similarity the code computes — cosine with both norms regularized by `+1e-8`
— strictly exceeds `reid_threshold`, and get distinct ids when it is below.
For embeddings of ordinary magnitude this agrees with cosine similarity, but
not in general (see the counterexample). -/
theorem C2_reid_stability_separation (norm : List ℚ → ℚ) (θ : ℚ) (n0 : ℕ)
    (c1 l1 c2 l2 : ℕ) (f1 f2 : List ℚ) (hθ : 0 ≤ θ) (hc : c1 ≠ c2) :
    (θ < calcFeatureSimilarity norm f2 f1 →
      (assignGlobalId norm
        (assignGlobalId norm
          { cfg := { reid_threshold := θ }, next_global_id := n0 } l1 c1 (some f1)).2
        l2 c2 (some f2)).1 =
      (assignGlobalId norm
        { cfg := { reid_threshold := θ }, next_global_id := n0 } l1 c1 (some f1)).1) ∧
    (calcFeatureSimilarity norm f2 f1 < θ →
      (assignGlobalId norm
        (assignGlobalId norm
          { cfg := { reid_threshold := θ }, next_global_id := n0 } l1 c1 (some f1)).2
        l2 c2 (some f2)).1 ≠
      (assignGlobalId norm
        { cfg := { reid_threshold := θ }, next_global_id := n0 } l1 c1 (some f1)).1) := by
  obtain ⟨hfst, hsnd, hsame, hsep⟩ :=
    assign_two_from_empty norm θ n0 c1 l1 c2 l2 f1 f2 hθ hc
  constructor
  · intro hsim
    rw [hsnd, hfst, hsame hsim]
  · intro hsim
    rw [hsnd, hfst, hsep hsim]
    omega

/-- The Euclidean norm on the C2 witness vectors `[1, 0]` and `[0, 1]`. -/
def normW : List ℚ → ℚ :=
  fun v => if v = [1, 0] ∨ v = [0, 1] then 1 else 0

theorem C2_reid_stability_separation_witness :
    ((assignGlobalId normW
        (assignGlobalId normW
          { cfg := { reid_threshold := 7/10 }, next_global_id := 0 } 0 0
          (some [1, 0])).2 0 1 (some [1, 0])).1 =
      (assignGlobalId normW
        { cfg := { reid_threshold := 7/10 }, next_global_id := 0 } 0 0
        (some [1, 0])).1) ∧
    ((assignGlobalId normW
        (assignGlobalId normW
          { cfg := { reid_threshold := 7/10 }, next_global_id := 0 } 0 0
          (some [1, 0])).2 0 1 (some [0, 1])).1 ≠
      (assignGlobalId normW
        { cfg := { reid_threshold := 7/10 }, next_global_id := 0 } 0 0
        (some [1, 0])).1) :=
  ⟨(C2_reid_stability_separation normW (7/10) 0 0 0 1 0 [1, 0] [1, 0]
      (by norm_num) (by norm_num)).1
      (by norm_num [calcFeatureSimilarity, normW, normEps, dotQ]),
    (C2_reid_stability_separation normW (7/10) 0 0 0 1 0 [1, 0] [0, 1]
      (by norm_num) (by norm_num)).2
      (by norm_num [calcFeatureSimilarity, normW, normEps, dotQ])⟩

/-- Two-member fused object with confidences `0.95` and `0.95`. -/
def oC4cex : FusedObject :=
  ⟨0, [⟨0, ⟨0, 0, 10, 10⟩, 95/100, none, 0⟩, ⟨1, ⟨0, 0, 10, 10⟩, 95/100, none, 0⟩], 0, 0⟩

/-- Two-member fused object with confidences `0.9` and `0.88` (the spec's
scenario). -/
def oC4spec : FusedObject :=
  ⟨0, [⟨0, ⟨100, 100, 200, 300⟩, 9/10, none, 0⟩,
       ⟨1, ⟨150, 120, 250, 320⟩, 88/100, none, 0⟩], 0, 0⟩

/-- **C4, counterexample.** With two members of confidence `0.95` the claimed
product formula gives `0.95 · 1.1 = 1.045`, but `update_confidence` caps the
result at `1.0`: the claim's unconditional equality is false. -/
theorem C4_counterexample :
    (updateConfidence oC4cex).confidence = 1 ∧
    ((oC4cex.detections.map (·.confidence)).sum / oC4cex.detections.length) *
      (1 + (2/10) * min ((oC4cex.detections.length : ℚ) / 4) 1) = 209/200 ∧
    (updateConfidence oC4cex).confidence ≠
      ((oC4cex.detections.map (·.confidence)).sum / oC4cex.detections.length) *
        (1 + (2/10) * min ((oC4cex.detections.length : ℚ) / 4) 1) := by
  refine ⟨?_, ?_, ?_⟩ <;>
    norm_num [updateConfidence, oC4cex, min_def, List.cons_ne_nil]

/-- **C4** (amended).  For a non-empty member list `update_confidence` sets
`confidence = min(mean(confidences) · (1 + 0.2·min(count/4, 1)), 1.0)` — the
claimed product formula holds exactly whenever it does not exceed `1.0`; in
particular two members with confidences `0.9` and `0.88` give
`mean(0.9, 0.88) · 1.1 = 0.979`. -/
theorem C4_confidence_formula :
    (∀ o : FusedObject, o.detections ≠ [] →
      (updateConfidence o).confidence =
        min (((o.detections.map (·.confidence)).sum / o.detections.length) *
          (1 + (2/10) * min ((o.detections.length : ℚ) / 4) 1)) 1) ∧
    (∀ o : FusedObject, o.detections ≠ [] →
      ((o.detections.map (·.confidence)).sum / o.detections.length) *
          (1 + (2/10) * min ((o.detections.length : ℚ) / 4) 1) ≤ 1 →
      (updateConfidence o).confidence =
        ((o.detections.map (·.confidence)).sum / o.detections.length) *
          (1 + (2/10) * min ((o.detections.length : ℚ) / 4) 1)) ∧
    (updateConfidence oC4spec).confidence = ((9/10 + 88/100) / 2) * (11/10) := by
  have hbase : ∀ o : FusedObject, o.detections ≠ [] →
      (updateConfidence o).confidence =
        min (((o.detections.map (·.confidence)).sum / o.detections.length) *
          (1 + (2/10) * min ((o.detections.length : ℚ) / 4) 1)) 1 := by
    intro o h
    unfold updateConfidence
    rw [if_neg h]
    ring_nf
  refine ⟨hbase, ?_, ?_⟩
  · intro o h hle
    rw [hbase o h, min_eq_left hle]
  · norm_num [updateConfidence, oC4spec, min_def, List.cons_ne_nil]

theorem C4_confidence_formula_witness :
    (updateConfidence oC4spec).confidence =
      min (((oC4spec.detections.map (·.confidence)).sum / oC4spec.detections.length) *
        (1 + (2/10) * min ((oC4spec.detections.length : ℚ) / 4) 1)) 1 ∧
    (updateConfidence oC4spec).confidence =
      ((oC4spec.detections.map (·.confidence)).sum / oC4spec.detections.length) *
        (1 + (2/10) * min ((oC4spec.detections.length : ℚ) / 4) 1) :=
  ⟨C4_confidence_formula.1 oC4spec (by simp [oC4spec]),
    C4_confidence_formula.2.1 oC4spec (by simp [oC4spec])
      (by norm_num [oC4spec, min_def])⟩

/-- **C10.** Every `FusedObject` returned by `merge_detections` carries a
freshly minted global id: `next_global_id` advances exactly once per object
created, and no id is shared between the objects of two successive calls —
fused identities are not persistent across time-steps. -/
theorem C10_merge_detections_fresh_ids (norm : List ℚ → ℚ) (st : FusionState)
    (inp1 inp2 : List (ℕ × List FDet)) :
    (mergeDetections norm st inp1).2.next_global_id =
      st.next_global_id + (mergeDetections norm st inp1).1.length ∧
    (∀ o1 ∈ (mergeDetections norm st inp1).1,
      ∀ o2 ∈ (mergeDetections norm (mergeDetections norm st inp1).2 inp2).1,
        o1.global_id ≠ o2.global_id) := by
  obtain ⟨h1Le, h1Mem, h1Count⟩ := mergeDetections_ids norm st inp1
  obtain ⟨h2Le, h2Mem, h2Count⟩ :=
    mergeDetections_ids norm (mergeDetections norm st inp1).2 inp2
  refine ⟨h1Count, ?_⟩
  intro o1 ho1 o2 ho2
  have hub := (h1Mem o1 ho1).2
  have hlb := (h2Mem o2 ho2).1
  omega

/-- Concrete detection, norm instance and the two fused objects of the C10
witness run. -/
def fdW : FDet := ⟨0, ⟨0, 0, 10, 10⟩, 9/10, none, 0⟩

def nrm0 : List ℚ → ℚ := fun _ => 0

def oW1 : FusedObject := ⟨0, [fdW], 189/200, 0⟩

def oW2 : FusedObject := ⟨1, [fdW], 189/200, 0⟩

theorem C10_eval1 : mergeDetections nrm0 {} [(0, [fdW])] =
    ([oW1], { next_global_id := 1 }) := by
  norm_num [mergeDetections, updateConfidence, fdW, oW1, min_def]

theorem C10_eval2 :
    mergeDetections nrm0 { next_global_id := 1 } [(0, [fdW])] =
      ([oW2], { next_global_id := 2 }) := by
  norm_num [mergeDetections, updateConfidence, fdW, oW2, min_def]

theorem C10_merge_detections_fresh_ids_witness :
    oW1 ∈ (mergeDetections nrm0 {} [(0, [fdW])]).1 ∧
    oW2 ∈ (mergeDetections nrm0 (mergeDetections nrm0 {} [(0, [fdW])]).2
      [(0, [fdW])]).1 ∧
    oW1.global_id ≠ oW2.global_id := by
  have hm1 : oW1 ∈ (mergeDetections nrm0 {} [(0, [fdW])]).1 := by
    rw [C10_eval1]
    exact List.mem_singleton_self oW1
  have hm2 : oW2 ∈ (mergeDetections nrm0 (mergeDetections nrm0 {} [(0, [fdW])]).2
      [(0, [fdW])]).1 := by
    rw [C10_eval1, C10_eval2]
    exact List.mem_singleton_self oW2
  exact ⟨hm1, hm2,
    (C10_merge_detections_fresh_ids nrm0 {} [(0, [fdW])] [(0, [fdW])]).2 oW1 hm1 oW2 hm2⟩

/-- Concrete engine of the C6 witness: camera 0 holds one frame at `t = 10`,
camera 1 is registered with an empty buffer. -/
def sfW : SFrame := ⟨0, 0, 10, 1⟩

def bufW : FrameBuffer := ⟨0, 30, [sfW]⟩

def bufE : FrameBuffer := ⟨1, 30, []⟩

def stW : SyncState :=
  { tolerance_ms := 100, buffers := [(0, bufW), (1, bufE)],
    frame_counters := [(0, 1), (1, 0)] }

theorem C6_eval : getSyncedFrames stW none none = [(0, sfW)] := by
  norm_num [getSyncedFrames, resolvedRef, getReferenceTimestamp, getLatestTimestamp,
    getClosestFrame, lookupA, stW, bufW, bufE, sfW, SyncState.tolerance_sec,
    List.filterMap, List.cons_ne_nil]

theorem C6_synced_frames_tolerance_witness :
    (∃ r, resolvedRef stW none = some r ∧ |sfW.timestamp - r| ≤ stW.tolerance_ms / 1000) ∧
    ∀ f, (1, f) ∉ getSyncedFrames stW none none :=
  ⟨C6_synced_frames_tolerance.1 stW none none 0 sfW
      (by rw [C6_eval]; exact List.mem_singleton_self _),
    C6_synced_frames_tolerance.2.1 stW none none 1 bufE rfl rfl⟩

end S2P
